import Mathlib

/-
Verification of the entity-resolution and diagram-synthesis engine of
inspect_step.py against its specification.

The JSON data model is embedded shallowly: JSON values become the mutual
inductive types Json / JList / JObj (numbers as integers, which covers every
value the claims probe), Python dicts become key/value sequences in
insertion order, and Python operations that can raise (attribute access on
non-mappings, hashing of unhashable keys, iteration over non-iterables,
joining non-strings) are modelled in the Except monad, with Except.error
standing for a raised exception.
-/

set_option maxHeartbeats 1000000

mutual
inductive Json where
  | null : Json
  | bool : Bool → Json
  | num : Int → Json
  | str : String → Json
  | arr : JList → Json
  | obj : JObj → Json

inductive JList where
  | nil : JList
  | cons : Json → JList → JList

inductive JObj where
  | nil : JObj
  | cons : String → Json → JObj → JObj
end

/-- Build a JList from a Lean list of values. -/
def JList.ofList : List Json → JList
  | [] => .nil
  | x :: xs => .cons x (JList.ofList xs)

/-- The elements of a JList as a Lean list. -/
def JList.toList : JList → List Json
  | .nil => []
  | .cons x xs => x :: JList.toList xs

/-- Build a JObj from a Lean list of key/value pairs. -/
def JObj.ofList : List (String × Json) → JObj
  | [] => .nil
  | (k, v) :: kvs => .cons k v (JObj.ofList kvs)

/-- The entries of a JObj as a Lean list of pairs. -/
def JObj.toList : JObj → List (String × Json)
  | .nil => []
  | .cons k v kvs => (k, v) :: JObj.toList kvs

/-- A JSON array literal. -/
def jarr (xs : List Json) : Json := .arr (JList.ofList xs)

/-- A JSON object literal. -/
def jobj (kvs : List (String × Json)) : Json := .obj (JObj.ofList kvs)

mutual
/-- Structural equality of JSON values, as Python == compares them. -/
def jeq : Json → Json → Bool
  | .null, .null => true
  | .bool a, .bool b => a == b
  | .num a, .num b => a == b
  | .str a, .str b => a == b
  | .arr xs, .arr ys => jeqL xs ys
  | .obj xs, .obj ys => jeqO xs ys
  | _, _ => false

def jeqL : JList → JList → Bool
  | .nil, .nil => true
  | .cons x xs, .cons y ys => jeq x y && jeqL xs ys
  | _, _ => false

def jeqO : JObj → JObj → Bool
  | .nil, .nil => true
  | .cons k v kvs, .cons l w lws => k == l && jeq v w && jeqO kvs lws
  | _, _ => false
end

mutual
theorem jeq_iff : ∀ a b : Json, jeq a b = true ↔ a = b
  | .null, b => by cases b <;> simp [jeq]
  | .bool a, b => by cases b <;> simp [jeq]
  | .num a, b => by cases b <;> simp [jeq]
  | .str a, b => by cases b <;> simp [jeq]
  | .arr xs, b => by
      cases b <;> simp [jeq]
      exact jeqL_iff xs _
  | .obj xs, b => by
      cases b <;> simp [jeq]
      exact jeqO_iff xs _

theorem jeqL_iff : ∀ a b : JList, jeqL a b = true ↔ a = b
  | .nil, b => by cases b <;> simp [jeqL]
  | .cons x xs, b => by
      cases b <;> simp [jeqL]
      rw [jeq_iff, jeqL_iff]

theorem jeqO_iff : ∀ a b : JObj, jeqO a b = true ↔ a = b
  | .nil, b => by cases b <;> simp [jeqO]
  | .cons k v kvs, b => by
      cases b <;> simp [jeqO]
      rw [jeq_iff, jeqO_iff]
      tauto
end

instance : DecidableEq Json := fun a b =>
  decidable_of_iff (jeq a b = true) (jeq_iff a b)

instance : DecidableEq JList := fun a b =>
  decidable_of_iff (jeqL a b = true) (jeqL_iff a b)

instance : DecidableEq JObj := fun a b =>
  decidable_of_iff (jeqO a b = true) (jeqO_iff a b)

/-- Python truthiness of a JSON-decoded value: None, False, 0, "", and the
empty list and dict are falsy, everything else is truthy. -/
def truthy : Json → Bool
  | .null => false
  | .bool b => b
  | .num n => decide (n ≠ 0)
  | .str s => !s.isEmpty
  | .arr .nil => false
  | .arr (.cons _ _) => true
  | .obj .nil => false
  | .obj (.cons _ _ _) => true

/-- Python `a or b` on JSON-decoded values: `a` when truthy, else `b`. -/
def pyOr (a b : Json) : Json := if truthy a then a else b

/-- `d.get(k)` on an object's entries: the stored value, or null (Python
None) when the key is absent.  JSON null and an absent key both come out as
Python None, which is exactly how the source code observes them via .get. -/
def jget : JObj → String → Json
  | .nil, _ => .null
  | .cons k v kvs, key => if k == key then v else jget kvs key

/-- Whether an object's entries contain a key. -/
def jhas : JObj → String → Bool
  | .nil, _ => false
  | .cons k _ kvs, key => k == key || jhas kvs key

/-- Total field access: `j.get(k)` when `j` is a mapping, null otherwise.
Used in statements and in positions where `j` is already known to be a
mapping. -/
def jgetJ (j : Json) (k : String) : Json :=
  match j with
  | .obj kvs => jget kvs k
  | _ => .null

/-- `j.get(k)`, raising (AttributeError) when `j` is not a mapping. -/
def mget (j : Json) (k : String) : Except Unit Json :=
  match j with
  | .obj kvs => .ok (jget kvs k)
  | _ => .error ()

/-- `j.get(k, d)`, raising when `j` is not a mapping.  Unlike mget, this
distinguishes an absent key (default returned) from a stored null. -/
def mgetD (j : Json) (k : String) (d : Json) : Except Unit Json :=
  match j with
  | .obj kvs => .ok (if jhas kvs k then jget kvs k else d)
  | _ => .error ()

/-- Python `k in j` for a mapping (false on non-mappings; the code only
uses it on mappings). -/
def hasKey (j : Json) (k : String) : Bool :=
  match j with
  | .obj kvs => jhas kvs k
  | _ => false

/-- JSON-decoded values that Python can hash (usable as dict keys):
everything except lists and dicts. -/
def hashable : Json → Bool
  | .arr _ => false
  | .obj _ => false
  | _ => true

/-- An index built by index_by_id: a Python dict in insertion order. -/
abbrev JDict := List (Json × Json)

/-- `idx.get(k)` on an index, raising (TypeError) when `k` is unhashable. -/
def dictGet (idx : JDict) (k : Json) : Except Unit Json :=
  if hashable k then
    .ok (match idx.find? (fun p => decide (p.1 = k)) with
         | some p => p.2
         | none => .null)
  else .error ()

/-- Python `iter(j)` materialised: list elements; keys of a dict; the
one-character strings of a string; raises (TypeError) on other scalars. -/
def pyIter : Json → Except Unit (List Json)
  | .arr xs => .ok xs.toList
  | .obj kvs => .ok (kvs.toList.map (fun p => .str p.1))
  | .str s => .ok (s.data.map (fun c => .str (String.mk [c])))
  | _ => .error ()

mutual
/-- Python repr() of a JSON-decoded value; string escaping inside
containers is not modelled (no claim depends on container rendering). -/
def pyRepr : Json → String
  | .null => "None"
  | .bool b => if b then "True" else "False"
  | .num n => toString n
  | .str s => "'" ++ s ++ "'"
  | .arr xs => "\x5b" ++ pyReprSeq xs ++ "\x5d"
  | .obj kvs => "\x7b" ++ pyReprKvs kvs ++ "\x7d"

def pyReprSeq : JList → String
  | .nil => ""
  | .cons x .nil => pyRepr x
  | .cons x (.cons y xs) => pyRepr x ++ ", " ++ pyReprSeq (.cons y xs)

def pyReprKvs : JObj → String
  | .nil => ""
  | .cons k v .nil => "'" ++ k ++ "': " ++ pyRepr v
  | .cons k v (.cons l w kvs) =>
      "'" ++ k ++ "': " ++ pyRepr v ++ ", " ++ pyReprKvs (.cons l w kvs)
end

/-- Python str() of a JSON-decoded value, as interpolated by an f-string. -/
def pyStr (j : Json) : String :=
  match j with
  | .str s => s
  | j => pyRepr j

/-- `sep.join(xs)` over JSON-decoded values: raises (TypeError) when any
element is not a string. -/
def pyJoin (sep : String) : List Json → Except Unit String
  | [] => .ok ""
  | .str s :: xs =>
      match xs with
      | [] => .ok s
      | _ => do
        let r ← pyJoin sep xs
        .ok (s ++ sep ++ r)
  | _ :: _ => .error ()

example : jeq (jobj [("a", .num 1)]) (jobj [("a", .num 1)]) = true := by decide

example : truthy (jobj [("a", .null)]) = true := by decide

example : pyStr (.num 5) = "5" := by decide

/- ===== sanitize_label (Mermaid label sanitizer) ===== -/

/-- The whitespace characters recognised by Python str.split() (ASCII
range; the labels this program sanitises are ASCII). -/
def isWsChar (c : Char) : Bool :=
  c == ' ' || c == '\t' || c == '\n' || c == '\r' || c == '\x0b' || c == '\x0c'

/-- One pass of Python str.replace: scan left to right, replace
non-overlapping occurrences of the pattern `p :: ps`, continue after the
replacement.  Fuelled so it reduces in the kernel; fuel = input length
always suffices since each step consumes at least one character. -/
def replaceAllF (p : Char) (ps : List Char) (r : List Char) : Nat → List Char → List Char
  | 0, l => l
  | _+1, [] => []
  | f+1, c :: cs =>
      if (p :: ps).isPrefixOf (c :: cs) then r ++ replaceAllF p ps r f (cs.drop ps.length)
      else c :: replaceAllF p ps r f cs

/-- Python `l.replace(pat, r)` (for a non-empty pattern, the only use in
the source). -/
def pyReplace (l : List Char) (pat : List Char) (r : List Char) : List Char :=
  match pat with
  | [] => l
  | p :: ps => replaceAllF p ps r l.length l

/-- Whether `pat` occurs as a contiguous substring (Python `pat in s`). -/
def containsSub (pat : List Char) : List Char → Bool
  | [] => pat.isEmpty
  | c :: cs => pat.isPrefixOf (c :: cs) || containsSub pat cs

/-- The character-stripping loop of sanitize_label, in source order:
double-quote, backslash, the four brace/bracket characters, then the
three-character substring "dms". -/
def stripChars (t : List Char) : List Char :=
  pyReplace (pyReplace (pyReplace (pyReplace (pyReplace (pyReplace (pyReplace
    t ['\x22'] []) ['\x5c'] []) ['\x7b'] []) ['\x7d'] []) ['\x5b'] []) ['\x5d'] [])
    ['d', 'm', 's'] []

/-- Python str.split() (split on whitespace runs, dropping empties),
fuelled; fuel = input length always suffices. -/
def pySplitF : Nat → List Char → List (List Char)
  | 0, _ => []
  | _+1, [] => []
  | f+1, c :: cs =>
      if isWsChar c then pySplitF f cs
      else (c :: cs.takeWhile (fun x => !isWsChar x)) :: pySplitF f (cs.dropWhile (fun x => !isWsChar x))

/-- Python `text.split()`. -/
def pySplit (l : List Char) : List (List Char) := pySplitF l.length l

/-- Python `" ".join(words)`. -/
def joinWords : List (List Char) → List Char
  | [] => []
  | [w] => w
  | w :: v :: ws => w ++ ' ' :: joinWords (v :: ws)

/-- `" ".join(text.split())`: collapse all whitespace runs to single
spaces and strip leading/trailing whitespace. -/
def collapseWs (t : List Char) : List Char := joinWords (pySplit t)

/-- `text[:117] + "..." if len(text) > 120 else text`. -/
def truncate120 (t : List Char) : List Char :=
  if 120 < t.length then t.take 117 ++ ['.', '.', '.'] else t

/-- sanitize_label on the characters of a string: strip
Mermaid-breaking characters and the substring "dms", collapse whitespace,
truncate to 120 characters. -/
def sanitizeL (t : List Char) : List Char := truncate120 (collapseWs (stripChars t))

/-- sanitize_label on a string argument.  (The source first maps None to ""
and applies str(); sanitizeJ below covers non-string labels.) -/
def sanitize_label (s : String) : String := String.mk (sanitizeL s.data)

example : sanitize_label "ddmsms" = "dms" := by decide
example : sanitize_label "dms" = "" := by decide
example : sanitize_label "a\n  b" = "a b" := by decide
example : sanitize_label "d\x5bms" = "" := by decide


/- ===== lemmas about the sanitizer ===== -/

theorem replaceAllF_stable (p : Char) (ps r : List Char) :
    ∀ f g l, l.length ≤ f → l.length ≤ g → replaceAllF p ps r f l = replaceAllF p ps r g l := by
  intro f
  induction f with
  | zero =>
      intro g l hf _
      have : l = [] := List.eq_nil_of_length_eq_zero (Nat.le_zero.mp hf)
      subst this
      cases g <;> rfl
  | succ f ih =>
      intro g l hf hg
      cases l with
      | nil => cases g <;> rfl
      | cons c cs =>
          cases g with
          | zero => simp at hg
          | succ g =>
              have hf' : cs.length ≤ f := by simp at hf; omega
              have hg' : cs.length ≤ g := by simp at hg; omega
              have hdf : (cs.drop ps.length).length ≤ f := by
                simp only [List.length_drop]; omega
              have hdg : (cs.drop ps.length).length ≤ g := by
                simp only [List.length_drop]; omega
              show (if (p :: ps).isPrefixOf (c :: cs) then _ else _) =
                   (if (p :: ps).isPrefixOf (c :: cs) then _ else _)
              by_cases h : (p :: ps).isPrefixOf (c :: cs)
              · rw [if_pos h, if_pos h, ih g _ hdf hdg]
              · rw [if_neg h, if_neg h, ih g _ hf' hg']

theorem pyReplace_cons_pos (p c : Char) (ps r cs : List Char)
    (h : (p :: ps).isPrefixOf (c :: cs)) :
    pyReplace (c :: cs) (p :: ps) r = r ++ pyReplace (cs.drop ps.length) (p :: ps) r := by
  show (if (p :: ps).isPrefixOf (c :: cs) then
          r ++ replaceAllF p ps r cs.length (cs.drop ps.length)
        else c :: replaceAllF p ps r cs.length cs) = _
  rw [if_pos h]
  unfold pyReplace
  rw [replaceAllF_stable p ps r cs.length (cs.drop ps.length).length (cs.drop ps.length)
        (by simp only [List.length_drop]; omega) (Nat.le_refl _)]

theorem pyReplace_cons_neg (p c : Char) (ps r cs : List Char)
    (h : ¬ (p :: ps).isPrefixOf (c :: cs)) :
    pyReplace (c :: cs) (p :: ps) r = c :: pyReplace cs (p :: ps) r := by
  show (if (p :: ps).isPrefixOf (c :: cs) then
          r ++ replaceAllF p ps r cs.length (cs.drop ps.length)
        else c :: replaceAllF p ps r cs.length cs) = _
  rw [if_neg h]
  rfl

theorem mem_of_mem_replaceAllF (p : Char) (ps : List Char) :
    ∀ f l a, a ∈ replaceAllF p ps [] f l → a ∈ l := by
  intro f
  induction f with
  | zero => intro l a h; exact h
  | succ f ih =>
      intro l a h
      cases l with
      | nil => exact h
      | cons c cs =>
          rw [show replaceAllF p ps [] (f + 1) (c :: cs) =
              (if (p :: ps).isPrefixOf (c :: cs) then
                 [] ++ replaceAllF p ps [] f (cs.drop ps.length)
               else c :: replaceAllF p ps [] f cs) from rfl] at h
          by_cases hp : (p :: ps).isPrefixOf (c :: cs)
          · rw [if_pos hp, List.nil_append] at h
            exact List.mem_cons_of_mem c (List.drop_subset _ _ (ih _ a h))
          · rw [if_neg hp, List.mem_cons] at h
            rcases h with h | h
            · exact h ▸ List.mem_cons_self c cs
            · exact List.mem_cons_of_mem c (ih cs a h)

theorem mem_of_mem_pyReplace (p : Char) (ps l : List Char) (a : Char)
    (h : a ∈ pyReplace l (p :: ps) []) : a ∈ l :=
  mem_of_mem_replaceAllF p ps l.length l a h

theorem single_isPrefixOf_iff (p c : Char) (cs : List Char) :
    ([p] : List Char).isPrefixOf (c :: cs) = true ↔ p = c := by
  simp [List.isPrefixOf]

theorem not_mem_replaceAllF_single (p : Char) :
    ∀ f l, l.length ≤ f → p ∉ replaceAllF p [] [] f l := by
  intro f
  induction f with
  | zero =>
      intro l hf
      have : l = [] := List.eq_nil_of_length_eq_zero (Nat.le_zero.mp hf)
      subst this
      simp [replaceAllF]
  | succ f ih =>
      intro l hf
      cases l with
      | nil => simp [replaceAllF]
      | cons c cs =>
          have hlen : cs.length ≤ f := by simp at hf; omega
          rw [show replaceAllF p [] [] (f + 1) (c :: cs) =
              (if ([p] : List Char).isPrefixOf (c :: cs) then
                 [] ++ replaceAllF p [] [] f (cs.drop [].length)
               else c :: replaceAllF p [] [] f cs) from rfl]
          by_cases hp : ([p] : List Char).isPrefixOf (c :: cs)
          · rw [if_pos hp, List.nil_append]
            exact ih cs (by simpa using hlen)
          · have hc : p ≠ c := fun hh => hp ((single_isPrefixOf_iff p c cs).mpr hh)
            rw [if_neg hp]
            simp only [List.mem_cons, not_or]
            exact ⟨hc, ih cs hlen⟩

theorem not_mem_pyReplace_single (p : Char) (l : List Char) :
    p ∉ pyReplace l [p] [] :=
  not_mem_replaceAllF_single p l.length l (Nat.le_refl _)

theorem replaceAllF_single_of_not_mem (p : Char) :
    ∀ f l, p ∉ l → replaceAllF p [] [] f l = l := by
  intro f
  induction f with
  | zero => intro l _; rfl
  | succ f ih =>
      intro l hp
      cases l with
      | nil => rfl
      | cons c cs =>
          have hc : p ≠ c := fun h => hp (h ▸ List.mem_cons_self c cs)
          have hcs : p ∉ cs := fun h => hp (List.mem_cons_of_mem c h)
          have hpre : ¬ ([p] : List Char).isPrefixOf (c :: cs) :=
            fun h => hc ((single_isPrefixOf_iff p c cs).mp h)
          rw [show replaceAllF p [] [] (f + 1) (c :: cs) =
              (if ([p] : List Char).isPrefixOf (c :: cs) then
                 [] ++ replaceAllF p [] [] f (cs.drop [].length)
               else c :: replaceAllF p [] [] f cs) from rfl]
          rw [if_neg hpre, ih cs hcs]

theorem pyReplace_single_of_not_mem (p : Char) (l : List Char) (h : p ∉ l) :
    pyReplace l [p] [] = l :=
  replaceAllF_single_of_not_mem p l.length l h

theorem replaceAllF_of_not_sub (p : Char) (ps : List Char) :
    ∀ f l, containsSub (p :: ps) l = false → replaceAllF p ps [] f l = l := by
  intro f
  induction f with
  | zero => intro l _; rfl
  | succ f ih =>
      intro l hl
      cases l with
      | nil => rfl
      | cons c cs =>
          rw [show containsSub (p :: ps) (c :: cs) =
              ((p :: ps).isPrefixOf (c :: cs) || containsSub (p :: ps) cs) from rfl,
            Bool.or_eq_false_iff] at hl
          have hpre : ¬ (p :: ps).isPrefixOf (c :: cs) := by
            intro h
            rw [h] at hl
            exact absurd hl.1 (by simp)
          rw [show replaceAllF p ps [] (f + 1) (c :: cs) =
              (if (p :: ps).isPrefixOf (c :: cs) then
                 [] ++ replaceAllF p ps [] f (cs.drop ps.length)
               else c :: replaceAllF p ps [] f cs) from rfl]
          rw [if_neg hpre, ih cs hl.2]

theorem pyReplace_of_not_sub (p : Char) (ps l : List Char)
    (h : containsSub (p :: ps) l = false) : pyReplace l (p :: ps) [] = l :=
  replaceAllF_of_not_sub p ps l.length l h

theorem pySplitF_stable :
    ∀ f g l, l.length ≤ f → l.length ≤ g → pySplitF f l = pySplitF g l := by
  intro f
  induction f with
  | zero =>
      intro g l hf _
      have : l = [] := List.eq_nil_of_length_eq_zero (Nat.le_zero.mp hf)
      subst this
      cases g <;> rfl
  | succ f ih =>
      intro g l hf hg
      cases l with
      | nil => cases g <;> rfl
      | cons c cs =>
          cases g with
          | zero => simp at hg
          | succ g =>
              have hf' : cs.length ≤ f := by simp at hf; omega
              have hg' : cs.length ≤ g := by simp at hg; omega
              have hdf : (cs.dropWhile (fun x => !isWsChar x)).length ≤ f :=
                Nat.le_trans (List.dropWhile_sublist _).length_le hf'
              have hdg : (cs.dropWhile (fun x => !isWsChar x)).length ≤ g :=
                Nat.le_trans (List.dropWhile_sublist _).length_le hg'
              show (if isWsChar c then _ else _) = (if isWsChar c then _ else _)
              by_cases h : isWsChar c
              · rw [if_pos h, if_pos h, ih g cs hf' hg']
              · rw [if_neg h, if_neg h, ih g _ hdf hdg]

theorem pySplit_nil : pySplit [] = [] := rfl

theorem pySplit_cons_ws (c : Char) (cs : List Char) (h : isWsChar c = true) :
    pySplit (c :: cs) = pySplit cs := by
  show (if isWsChar c then pySplitF cs.length cs else _) = _
  rw [if_pos h]
  rfl

theorem pySplit_cons_word (c : Char) (cs : List Char) (h : isWsChar c = false) :
    pySplit (c :: cs) =
      (c :: cs.takeWhile (fun x => !isWsChar x)) ::
        pySplit (cs.dropWhile (fun x => !isWsChar x)) := by
  show (if isWsChar c then _
        else (c :: cs.takeWhile (fun x => !isWsChar x)) ::
          pySplitF cs.length (cs.dropWhile (fun x => !isWsChar x))) = _
  rw [if_neg (by simp [h])]
  rw [pySplitF_stable cs.length (cs.dropWhile (fun x => !isWsChar x)).length _
        (List.dropWhile_sublist _).length_le (Nat.le_refl _)]
  rfl

theorem takeWhile_all_eq {α : Type} (p : α → Bool) :
    ∀ l : List α, (∀ a ∈ l, p a = true) → l.takeWhile p = l := by
  intro l
  induction l with
  | nil => intro _; rfl
  | cons c cs ih =>
      intro h
      rw [List.takeWhile_cons, if_pos (h c (List.mem_cons_self c cs))]
      rw [ih (fun a ha => h a (List.mem_cons_of_mem c ha))]

theorem dropWhile_all_eq {α : Type} (p : α → Bool) :
    ∀ l : List α, (∀ a ∈ l, p a = true) → l.dropWhile p = [] := by
  intro l
  induction l with
  | nil => intro _; rfl
  | cons c cs ih =>
      intro h
      rw [List.dropWhile_cons, if_pos (h c (List.mem_cons_self c cs))]
      exact ih (fun a ha => h a (List.mem_cons_of_mem c ha))

theorem takeWhile_append_all {α : Type} (p : α → Bool) :
    ∀ (l₁ l₂ : List α), (∀ a ∈ l₁, p a = true) →
      (l₁ ++ l₂).takeWhile p = l₁ ++ l₂.takeWhile p := by
  intro l₁
  induction l₁ with
  | nil => intro l₂ _; rfl
  | cons c cs ih =>
      intro l₂ h
      rw [List.cons_append, List.takeWhile_cons, if_pos (h c (List.mem_cons_self c cs))]
      rw [ih l₂ (fun a ha => h a (List.mem_cons_of_mem c ha))]
      rfl

theorem dropWhile_append_all {α : Type} (p : α → Bool) :
    ∀ (l₁ l₂ : List α), (∀ a ∈ l₁, p a = true) →
      (l₁ ++ l₂).dropWhile p = l₂.dropWhile p := by
  intro l₁
  induction l₁ with
  | nil => intro l₂ _; rfl
  | cons c cs ih =>
      intro l₂ h
      rw [List.cons_append, List.dropWhile_cons, if_pos (h c (List.mem_cons_self c cs))]
      exact ih l₂ (fun a ha => h a (List.mem_cons_of_mem c ha))

theorem head_dropWhile_false {α : Type} (p : α → Bool) :
    ∀ (l : List α) (d : α) (r : List α), l.dropWhile p = d :: r → p d = false := by
  intro l
  induction l with
  | nil => intro d r h; simp [List.dropWhile] at h
  | cons c cs ih =>
      intro d r h
      rw [List.dropWhile_cons] at h
      by_cases hc : p c = true
      · rw [if_pos hc] at h
        exact ih d r h
      · rw [if_neg hc] at h
        cases h
        exact Bool.of_not_eq_true hc

theorem pySplitF_good :
    ∀ f l w, w ∈ pySplitF f l →
      w ≠ [] ∧ (∀ a ∈ w, isWsChar a = false) ∧ (∀ a ∈ w, a ∈ l) := by
  intro f
  induction f with
  | zero => intro l w h; simp [pySplitF] at h
  | succ f ih =>
      intro l w h
      cases l with
      | nil => simp [pySplitF] at h
      | cons c cs =>
          rw [show pySplitF (f + 1) (c :: cs) =
              (if isWsChar c then pySplitF f cs
               else (c :: cs.takeWhile (fun x => !isWsChar x)) ::
                 pySplitF f (cs.dropWhile (fun x => !isWsChar x))) from rfl] at h
          by_cases hc : isWsChar c
          · rw [if_pos hc] at h
            obtain ⟨h1, h2, h3⟩ := ih cs w h
            exact ⟨h1, h2, fun a ha => List.mem_cons_of_mem c (h3 a ha)⟩
          · rw [if_neg hc] at h
            rcases List.mem_cons.mp h with h | h
            · subst h
              refine ⟨List.cons_ne_nil _ _, ?_, ?_⟩
              · intro a ha
                rcases List.mem_cons.mp ha with rfl | ha
                · exact Bool.of_not_eq_true hc
                · have := List.mem_takeWhile_imp ha
                  simpa using this
              · intro a ha
                rcases List.mem_cons.mp ha with rfl | ha
                · exact List.mem_cons_self a cs
                · exact List.mem_cons_of_mem c ((List.takeWhile_sublist _).subset ha)
            · obtain ⟨h1, h2, h3⟩ := ih _ w h
              exact ⟨h1, h2, fun a ha =>
                List.mem_cons_of_mem c ((List.dropWhile_sublist _).subset (h3 a ha))⟩

theorem pySplit_good (l : List Char) (w : List Char) (h : w ∈ pySplit l) :
    w ≠ [] ∧ (∀ a ∈ w, isWsChar a = false) ∧ (∀ a ∈ w, a ∈ l) :=
  pySplitF_good l.length l w h

theorem mem_joinWords :
    ∀ (ws : List (List Char)) (a : Char), a ∈ joinWords ws →
      a = ' ' ∨ ∃ w ∈ ws, a ∈ w := by
  intro ws
  induction ws with
  | nil => intro a h; simp [joinWords] at h
  | cons w ws ih =>
      intro a h
      cases ws with
      | nil =>
          right
          exact ⟨w, List.mem_cons_self w [], h⟩
      | cons v ws' =>
          rw [show joinWords (w :: v :: ws') = w ++ ' ' :: joinWords (v :: ws') from rfl] at h
          rcases List.mem_append.mp h with h | h
          · exact Or.inr ⟨w, List.mem_cons_self w _, h⟩
          · rcases List.mem_cons.mp h with rfl | h
            · exact Or.inl rfl
            · rcases ih a h with h | ⟨u, hu, ha⟩
              · exact Or.inl h
              · exact Or.inr ⟨u, List.mem_cons_of_mem w hu, ha⟩

theorem pySplit_joinWords :
    ∀ ws : List (List Char),
      (∀ w ∈ ws, w ≠ [] ∧ ∀ a ∈ w, isWsChar a = false) →
      pySplit (joinWords ws) = ws := by
  intro ws
  induction ws with
  | nil => intro _; rfl
  | cons w ws ih =>
      intro h
      obtain ⟨hw, hwf⟩ := h w (List.mem_cons_self w ws)
      obtain ⟨c, t, rfl⟩ : ∃ c t, w = c :: t := by
        cases w with
        | nil => exact absurd rfl hw
        | cons c t => exact ⟨c, t, rfl⟩
      have hct : ∀ a ∈ c :: t, (fun x => !isWsChar x) a = true := by
        intro a ha
        simp [hwf a ha]
      have hc : isWsChar c = false := hwf c (List.mem_cons_self c t)
      have ht : ∀ a ∈ t, (fun x => !isWsChar x) a = true :=
        fun a ha => hct a (List.mem_cons_of_mem c ha)
      cases ws with
      | nil =>
          rw [show joinWords [c :: t] = c :: t from rfl]
          rw [pySplit_cons_word c t hc]
          rw [takeWhile_all_eq _ t ht, dropWhile_all_eq _ t ht, pySplit_nil]
      | cons v ws' =>
          rw [show joinWords ((c :: t) :: v :: ws') =
                (c :: t) ++ ' ' :: joinWords (v :: ws') from rfl]
          rw [List.cons_append, pySplit_cons_word c _ hc]
          rw [takeWhile_append_all _ t _ ht, dropWhile_append_all _ t _ ht]
          rw [show (' ' :: joinWords (v :: ws')).takeWhile (fun x => !isWsChar x) = [] from by
                rw [List.takeWhile_cons, if_neg (by simp [isWsChar])]]
          rw [show (' ' :: joinWords (v :: ws')).dropWhile (fun x => !isWsChar x) =
                ' ' :: joinWords (v :: ws') from by
                rw [List.dropWhile_cons, if_neg (by simp [isWsChar])]]
          rw [pySplit_cons_ws ' ' _ (by simp [isWsChar])]
          rw [ih (fun u hu => h u (List.mem_cons_of_mem _ hu)), List.append_nil]

/-- All characters are non-whitespace. -/
def wsFree (l : List Char) : Bool := l.all (fun c => !isWsChar c)

/-- Every whitespace character is a plain space. -/
def allSp (l : List Char) : Bool := l.all (fun c => !isWsChar c || c == ' ')

/-- No two adjacent whitespace characters. -/
def noRun : List Char → Bool
  | a :: b :: r => !(isWsChar a && isWsChar b) && noRun (b :: r)
  | _ => true

/-- The first character, if any, is not whitespace. -/
def noLead : List Char → Bool
  | [] => true
  | c :: _ => !isWsChar c

/-- The last character, if any, is not whitespace. -/
def noTrail : List Char → Bool
  | [] => true
  | [c] => !isWsChar c
  | _ :: c :: r => noTrail (c :: r)

/-- Collapsed-whitespace normal form: all whitespace is single interior
spaces.  Strings in this form are fixed points of collapseWs. -/
def wsNormal (l : List Char) : Bool := allSp l && noRun l && noLead l && noTrail l

theorem noRun_tail (a : Char) (r : List Char) (h : noRun (a :: r) = true) :
    noRun r = true := by
  cases r with
  | nil => rfl
  | cons b q =>
      rw [show noRun (a :: b :: q) = (!(isWsChar a && isWsChar b) && noRun (b :: q)) from rfl,
        Bool.and_eq_true] at h
      exact h.2

theorem noRun_suffix : ∀ xs ys : List Char, noRun (xs ++ ys) = true → noRun ys = true := by
  intro xs
  induction xs with
  | nil => intro ys h; exact h
  | cons a xs ih => intro ys h; exact ih ys (noRun_tail a _ h)

theorem noTrail_append_right :
    ∀ xs ys : List Char, ys ≠ [] → noTrail (xs ++ ys) = noTrail ys := by
  intro xs
  induction xs with
  | nil => intro ys _; rfl
  | cons a xs ih =>
      intro ys hys
      cases h : xs ++ ys with
      | nil => exact absurd (List.append_eq_nil.mp h).2 hys
      | cons c r =>
          rw [List.cons_append, h]
          rw [show noTrail (a :: c :: r) = noTrail (c :: r) from rfl]
          rw [← h, ih ys hys]

theorem noRun_of_wsFree : ∀ l : List Char, wsFree l = true → noRun l = true := by
  intro l
  induction l with
  | nil => intro _; rfl
  | cons a r ih =>
      intro h
      rw [wsFree, List.all_cons, Bool.and_eq_true] at h
      cases r with
      | nil => rfl
      | cons b q =>
          rw [show noRun (a :: b :: q) = (!(isWsChar a && isWsChar b) && noRun (b :: q)) from rfl,
            Bool.and_eq_true]
          refine ⟨?_, ih h.2⟩
          have ha : isWsChar a = false := by simpa using h.1
          simp [ha]

theorem noTrail_of_wsFree : ∀ l : List Char, wsFree l = true → noTrail l = true := by
  intro l
  induction l with
  | nil => intro _; rfl
  | cons a r ih =>
      intro h
      rw [wsFree, List.all_cons, Bool.and_eq_true] at h
      cases r with
      | nil => exact h.1
      | cons b q => exact ih h.2

theorem noRun_append_of_wsFree_left :
    ∀ w ys : List Char, wsFree w = true → noRun ys = true → noRun (w ++ ys) = true := by
  intro w
  induction w with
  | nil => intro ys _ h; exact h
  | cons a r ih =>
      intro ys hw hys
      rw [wsFree, List.all_cons, Bool.and_eq_true] at hw
      have tail : noRun (r ++ ys) = true := ih ys hw.2 hys
      rw [List.cons_append]
      cases h : r ++ ys with
      | nil => rfl
      | cons b q =>
          rw [show noRun (a :: b :: q) = (!(isWsChar a && isWsChar b) && noRun (b :: q)) from rfl,
            Bool.and_eq_true]
          refine ⟨by simp [hw.1], ?_⟩
          rw [← h]
          exact tail

theorem noRun_append_of_head_not_ws :
    ∀ (xs : List Char) (e : Char) (ys : List Char),
      noRun xs = true → noRun (e :: ys) = true → isWsChar e = false →
      noRun (xs ++ e :: ys) = true := by
  intro xs
  induction xs with
  | nil => intro e ys _ h _; exact h
  | cons a r ih =>
      intro e ys hx hys he
      rw [List.cons_append]
      cases r with
      | nil =>
          rw [List.nil_append,
            show noRun (a :: e :: ys) = (!(isWsChar a && isWsChar e) && noRun (e :: ys)) from rfl,
            Bool.and_eq_true]
          exact ⟨by simp [he], hys⟩
      | cons b q =>
          rw [show noRun (a :: b :: q) = (!(isWsChar a && isWsChar b) && noRun (b :: q)) from rfl,
            Bool.and_eq_true] at hx
          have tail := ih e ys hx.2 hys he
          rw [List.cons_append] at tail
          rw [show ((b :: q : List Char) ++ e :: ys) = b :: (q ++ e :: ys) from rfl,
            show noRun (a :: b :: (q ++ e :: ys)) =
              (!(isWsChar a && isWsChar b) && noRun (b :: (q ++ e :: ys))) from rfl,
            Bool.and_eq_true]
          exact ⟨hx.1, tail⟩

theorem allSp_of_wsFree (l : List Char) (h : wsFree l = true) : allSp l = true := by
  rw [wsFree, List.all_eq_true] at h
  rw [allSp, List.all_eq_true]
  intro a ha
  simp [h a ha]

theorem wsNormal_of_wsFree (l : List Char) (h : wsFree l = true) : wsNormal l = true := by
  rw [wsNormal]
  simp only [Bool.and_eq_true]
  refine ⟨⟨⟨allSp_of_wsFree l h, noRun_of_wsFree l h⟩, ?_⟩, noTrail_of_wsFree l h⟩
  cases l with
  | nil => rfl
  | cons c cs =>
      rw [wsFree, List.all_cons, Bool.and_eq_true] at h
      exact h.1

theorem joinWords_cons_eq (v : List Char) (ws : List (List Char)) :
    ∃ t, joinWords (v :: ws) = v ++ t := by
  cases ws with
  | nil => exact ⟨[], (List.append_nil v).symm⟩
  | cons u ws' => exact ⟨' ' :: joinWords (u :: ws'), rfl⟩

theorem wsNormal_joinWords :
    ∀ ws : List (List Char), (∀ w ∈ ws, w ≠ [] ∧ wsFree w = true) →
      wsNormal (joinWords ws) = true := by
  intro ws
  induction ws with
  | nil => intro _; rfl
  | cons w ws ih =>
      intro h
      obtain ⟨hw, hwf⟩ := h w (List.mem_cons_self w ws)
      cases ws with
      | nil =>
          rw [show joinWords [w] = w from rfl]
          exact wsNormal_of_wsFree w hwf
      | cons v ws' =>
          have hgood : ∀ u ∈ v :: ws', u ≠ [] ∧ wsFree u = true :=
            fun u hu => h u (List.mem_cons_of_mem w hu)
          have hJ := ih hgood
          obtain ⟨hv, hvf⟩ := hgood v (List.mem_cons_self v ws')
          obtain ⟨tJ, htJ⟩ := joinWords_cons_eq v ws'
          obtain ⟨e, v', rfl⟩ : ∃ e v', v = e :: v' := by
            cases v with
            | nil => exact absurd rfl hv
            | cons e v' => exact ⟨e, v', rfl⟩
          have he : isWsChar e = false := by
            rw [wsFree, List.all_cons, Bool.and_eq_true] at hvf
            simpa using hvf.1
          rw [show joinWords (w :: (e :: v') :: ws') =
            w ++ ' ' :: joinWords ((e :: v') :: ws') from rfl]
          rw [wsNormal] at hJ ⊢
          simp only [Bool.and_eq_true] at hJ ⊢
          obtain ⟨⟨⟨hJa, hJr⟩, _⟩, hJt⟩ := hJ
          have hJcons : joinWords ((e :: v') :: ws') = e :: (v' ++ tJ) := by
            rw [htJ]; rfl
          refine ⟨⟨⟨?_, ?_⟩, ?_⟩, ?_⟩
          · rw [allSp, List.all_append]
            simp only [Bool.and_eq_true]
            refine ⟨allSp_of_wsFree w hwf, ?_⟩
            rw [List.all_cons, Bool.and_eq_true]
            exact ⟨by decide, hJa⟩
          · apply noRun_append_of_wsFree_left w _ hwf
            rw [hJcons,
              show noRun (' ' :: e :: (v' ++ tJ)) =
                (!(isWsChar ' ' && isWsChar e) && noRun (e :: (v' ++ tJ))) from rfl,
              Bool.and_eq_true]
            refine ⟨by simp [he], ?_⟩
            rw [← hJcons]
            exact hJr
          · obtain ⟨c, w', rfl⟩ : ∃ c w', w = c :: w' := by
              cases w with
              | nil => exact absurd rfl hw
              | cons c w' => exact ⟨c, w', rfl⟩
            rw [wsFree, List.all_cons, Bool.and_eq_true] at hwf
            rw [List.cons_append]
            simp only [noLead]
            simpa using hwf.1
          · rw [noTrail_append_right w _ (by simp)]
            rw [hJcons,
              show noTrail (' ' :: e :: (v' ++ tJ)) = noTrail (e :: (v' ++ tJ)) from rfl,
              ← hJcons]
            exact hJt

theorem wsNormal_collapseWs (l : List Char) : wsNormal (collapseWs l) = true := by
  apply wsNormal_joinWords
  intro w hw
  obtain ⟨h1, h2, _⟩ := pySplit_good l w hw
  refine ⟨h1, ?_⟩
  rw [wsFree, List.all_eq_true]
  intro a ha
  simp [h2 a ha]

theorem joinWords_pySplit_of_normal :
    ∀ (n : Nat) (l : List Char), l.length ≤ n → wsNormal l = true →
      joinWords (pySplit l) = l := by
  intro n
  induction n with
  | zero =>
      intro l hn _
      have : l = [] := List.eq_nil_of_length_eq_zero (Nat.le_zero.mp hn)
      subst this
      rfl
  | succ n ih =>
      intro l hn hN
      cases l with
      | nil => rfl
      | cons c cs =>
          rw [wsNormal] at hN
          simp only [Bool.and_eq_true] at hN
          obtain ⟨⟨⟨hAll, hRun⟩, hLead⟩, hTrail⟩ := hN
          have hc : isWsChar c = false := by simpa [noLead] using hLead
          rw [pySplit_cons_word c cs hc]
          have hsplit : cs.takeWhile (fun x => !isWsChar x) ++
              cs.dropWhile (fun x => !isWsChar x) = cs :=
            List.takeWhile_append_dropWhile (fun x => !isWsChar x) cs
          generalize hT : cs.takeWhile (fun x => !isWsChar x) = t at hsplit ⊢
          generalize hR : cs.dropWhile (fun x => !isWsChar x) = r at hsplit ⊢
          cases r with
          | nil =>
              rw [List.append_nil] at hsplit
              rw [pySplit_nil]
              rw [show joinWords [c :: t] = c :: t from rfl, hsplit]
          | cons d r₂ =>
              have hd : isWsChar d = true := by
                have := head_dropWhile_false (fun x => !isWsChar x) cs d r₂ hR
                simpa using this
              have hcs_eq : cs = t ++ d :: r₂ := hsplit.symm
              have hdsp : d = ' ' := by
                have hd_mem : d ∈ (c :: cs) := by
                  rw [hcs_eq]
                  exact List.mem_cons_of_mem c
                    (List.mem_append_right _ (List.mem_cons_self d r₂))
                rw [allSp, List.all_eq_true] at hAll
                have := hAll d hd_mem
                rw [hd] at this
                simp only [Bool.not_true, Bool.false_or] at this
                exact eq_of_beq this
              cases r₂ with
              | nil =>
                  exfalso
                  have heq : noTrail (c :: cs) = noTrail [d] := by
                    rw [hcs_eq, show c :: (t ++ [d]) = (c :: t) ++ [d] from rfl]
                    exact noTrail_append_right _ [d] (by simp)
                  rw [hTrail] at heq
                  rw [show noTrail [d] = !isWsChar d from rfl, hd] at heq
                  simp at heq
              | cons e r₃ =>
                  have hsuffRun : noRun (d :: e :: r₃) = true := by
                    apply noRun_suffix (c :: t)
                    rw [show (c :: t) ++ d :: e :: r₃ = c :: (t ++ d :: e :: r₃) from rfl]
                    rw [← hcs_eq]
                    exact hRun
                  have he : isWsChar e = false := by
                    rw [show noRun (d :: e :: r₃) =
                      (!(isWsChar d && isWsChar e) && noRun (e :: r₃)) from rfl,
                      Bool.and_eq_true] at hsuffRun
                    have := hsuffRun.1
                    rw [hd] at this
                    simpa using this
                  have hN₂ : wsNormal (e :: r₃) = true := by
                    rw [wsNormal]
                    simp only [Bool.and_eq_true]
                    refine ⟨⟨⟨?_, noRun_tail d _ hsuffRun⟩, by simpa [noLead] using he⟩, ?_⟩
                    · rw [allSp, List.all_eq_true] at hAll ⊢
                      intro a ha
                      apply hAll
                      rw [hcs_eq]
                      exact List.mem_cons_of_mem c
                        (List.mem_append_right _ (List.mem_cons_of_mem d ha))
                    · have h1 : noTrail (c :: cs) = noTrail (d :: e :: r₃) := by
                        rw [hcs_eq, show c :: (t ++ d :: e :: r₃) =
                          (c :: t) ++ d :: e :: r₃ from rfl]
                        exact noTrail_append_right _ _ (by simp)
                      rw [hTrail] at h1
                      rw [show noTrail (d :: e :: r₃) = noTrail (e :: r₃) from rfl] at h1
                      exact h1.symm
                  have hlen : (e :: r₃).length ≤ n := by
                    have hcl : cs.length = t.length + (2 + r₃.length) := by
                      rw [hcs_eq]
                      simp [List.length_append]
                      omega
                    simp only [List.length_cons] at hn ⊢
                    omega
                  have hrec := ih (e :: r₃) hlen hN₂
                  rw [pySplit_cons_ws d (e :: r₃) hd]
                  cases hW : pySplit (e :: r₃) with
                  | nil =>
                      rw [hW] at hrec
                      exact absurd hrec.symm (by simp [joinWords])
                  | cons w₀ ws' =>
                      rw [hW] at hrec
                      rw [show joinWords ((c :: t) :: w₀ :: ws') =
                        (c :: t) ++ ' ' :: joinWords (w₀ :: ws') from rfl]
                      rw [hrec, hcs_eq, hdsp]
                      rfl

theorem noRun_take : ∀ (l : List Char) (n : Nat), noRun l = true → noRun (l.take n) = true := by
  intro l
  induction l with
  | nil => intro n _; simp [noRun]
  | cons a r ih =>
      intro n h
      cases n with
      | zero => rfl
      | succ n =>
          rw [List.take_succ_cons]
          cases r with
          | nil => simp [noRun]
          | cons b r' =>
              cases n with
              | zero => simp [noRun]
              | succ n' =>
                  rw [List.take_succ_cons]
                  rw [show noRun (a :: b :: (r'.take n')) =
                    (!(isWsChar a && isWsChar b) && noRun (b :: r'.take n')) from rfl,
                    Bool.and_eq_true]
                  rw [show noRun (a :: b :: r') =
                    (!(isWsChar a && isWsChar b) && noRun (b :: r')) from rfl,
                    Bool.and_eq_true] at h
                  refine ⟨h.1, ?_⟩
                  have := ih (n' + 1) h.2
                  rw [List.take_succ_cons] at this
                  exact this

theorem wsNormal_take_dots (w : List Char) (n : Nat) (h : wsNormal w = true) :
    wsNormal (w.take n ++ ['.', '.', '.']) = true := by
  rw [wsNormal] at h ⊢
  simp only [Bool.and_eq_true] at h ⊢
  obtain ⟨⟨⟨hAll, hRun⟩, hLead⟩, _⟩ := h
  refine ⟨⟨⟨?_, ?_⟩, ?_⟩, ?_⟩
  · rw [allSp, List.all_append, Bool.and_eq_true]
    constructor
    · rw [List.all_eq_true]
      intro a ha
      rw [allSp, List.all_eq_true] at hAll
      exact hAll a (List.take_subset n w ha)
    · decide
  · exact noRun_append_of_head_not_ws (w.take n) '.' ['.', '.']
      (noRun_take w n hRun) (by decide) (by decide)
  · cases hq : w.take n with
    | nil => decide
    | cons c q =>
        have hcw : ∃ w', w = c :: w' := by
          cases w with
          | nil => rw [List.take_nil] at hq; cases hq
          | cons x w' =>
              cases n with
              | zero => cases hq
              | succ n =>
                  rw [List.take_succ_cons] at hq
                  cases hq
                  exact ⟨w', rfl⟩
        obtain ⟨w', rfl⟩ := hcw
        rw [List.cons_append]
        simpa [noLead] using hLead
  · rw [noTrail_append_right _ _ (by simp)]
    decide

theorem wsNormal_truncate120 (x : List Char) (h : wsNormal x = true) :
    wsNormal (truncate120 x) = true := by
  rw [truncate120]
  by_cases hl : 120 < x.length
  · rw [if_pos hl]
    exact wsNormal_take_dots x 117 h
  · rw [if_neg hl]
    exact h

theorem wsNormal_sanitizeL (t : List Char) : wsNormal (sanitizeL t) = true :=
  wsNormal_truncate120 _ (wsNormal_collapseWs (stripChars t))

theorem length_truncate120_le (x : List Char) : (truncate120 x).length ≤ 120 := by
  rw [truncate120]
  by_cases hl : 120 < x.length
  · rw [if_pos hl]
    rw [List.length_append, List.length_take]
    simp only [List.length_cons, List.length_nil]
    omega
  · rw [if_neg hl]
    omega

theorem truncate120_of_le (x : List Char) (h : x.length ≤ 120) : truncate120 x = x := by
  rw [truncate120, if_neg (by omega)]

theorem mem_truncate120 (x : List Char) (a : Char) (h : a ∈ truncate120 x) :
    a ∈ x ∨ a = '.' := by
  rw [truncate120] at h
  by_cases hl : 120 < x.length
  · rw [if_pos hl] at h
    rcases List.mem_append.mp h with h | h
    · exact Or.inl (List.take_subset 117 x h)
    · right
      simpa using h
  · rw [if_neg hl] at h
    exact Or.inl h

theorem mem_collapseWs (l : List Char) (a : Char) (h : a ∈ collapseWs l) :
    a = ' ' ∨ a ∈ l := by
  rcases mem_joinWords (pySplit l) a h with h | ⟨w, hw, ha⟩
  · exact Or.inl h
  · exact Or.inr ((pySplit_good l w hw).2.2 a ha)

theorem mem_sanitizeL (t : List Char) (a : Char) (h : a ∈ sanitizeL t) :
    a ∈ stripChars t ∨ a = ' ' ∨ a = '.' := by
  rcases mem_truncate120 _ a h with h | h
  · rcases mem_collapseWs _ a h with h | h
    · exact Or.inr (Or.inl h)
    · exact Or.inl h
  · exact Or.inr (Or.inr h)

theorem banned_not_mem_stripChars (t : List Char) (b : Char)
    (hb : b ∈ (['\x22', '\x5c', '\x7b', '\x7d', '\x5b', '\x5d'] : List Char)) :
    b ∉ stripChars t := by
  intro h
  rw [stripChars] at h
  have h6 := mem_of_mem_pyReplace 'd' ['m', 's'] _ _ h
  fin_cases hb
  · exact not_mem_pyReplace_single '\x22' t
      (mem_of_mem_pyReplace _ [] _ _ (mem_of_mem_pyReplace _ [] _ _
        (mem_of_mem_pyReplace _ [] _ _ (mem_of_mem_pyReplace _ [] _ _
          (mem_of_mem_pyReplace _ [] _ _ h6)))))
  · exact not_mem_pyReplace_single '\x5c' _
      (mem_of_mem_pyReplace _ [] _ _ (mem_of_mem_pyReplace _ [] _ _
        (mem_of_mem_pyReplace _ [] _ _ (mem_of_mem_pyReplace _ [] _ _ h6))))
  · exact not_mem_pyReplace_single '\x7b' _
      (mem_of_mem_pyReplace _ [] _ _ (mem_of_mem_pyReplace _ [] _ _
        (mem_of_mem_pyReplace _ [] _ _ h6)))
  · exact not_mem_pyReplace_single '\x7d' _
      (mem_of_mem_pyReplace _ [] _ _ (mem_of_mem_pyReplace _ [] _ _ h6))
  · exact not_mem_pyReplace_single '\x5b' _ (mem_of_mem_pyReplace _ [] _ _ h6)
  · exact not_mem_pyReplace_single '\x5d' _ h6

theorem banned_not_mem_sanitizeL (t : List Char) (b : Char)
    (hb : b ∈ (['\x22', '\x5c', '\x7b', '\x7d', '\x5b', '\x5d'] : List Char)) :
    b ∉ sanitizeL t := by
  intro h
  rcases mem_sanitizeL t b h with h | h | h
  · exact banned_not_mem_stripChars t b hb h
  · subst h; exact absurd hb (by decide)
  · subst h; exact absurd hb (by decide)

theorem stripChars_of_clean (u : List Char)
    (hB : ∀ b ∈ (['\x22', '\x5c', '\x7b', '\x7d', '\x5b', '\x5d'] : List Char), b ∉ u)
    (hnd : containsSub ['d', 'm', 's'] u = false) :
    stripChars u = u := by
  rw [stripChars]
  rw [pyReplace_single_of_not_mem '\x22' u (hB _ (by decide))]
  rw [pyReplace_single_of_not_mem '\x5c' u (hB _ (by decide))]
  rw [pyReplace_single_of_not_mem '\x7b' u (hB _ (by decide))]
  rw [pyReplace_single_of_not_mem '\x7d' u (hB _ (by decide))]
  rw [pyReplace_single_of_not_mem '\x5b' u (hB _ (by decide))]
  rw [pyReplace_single_of_not_mem '\x5d' u (hB _ (by decide))]
  exact pyReplace_of_not_sub 'd' ['m', 's'] u hnd

/-- C1: the label sanitizer strips every Mermaid-breaking character, and
sanitizing twice equals sanitizing once PROVIDED the once-sanitized string
contains no occurrence of the three-character substring "dms" (removing
"dms" can splice a fresh "dms" together, see the counterexample; the
original unconditional idempotence claim is false). -/
theorem string_mk_data (l : List Char) : (String.mk l).data = l := rfl

theorem collapseWs_of_normal (l : List Char) (h : wsNormal l = true) : collapseWs l = l :=
  joinWords_pySplit_of_normal l.length l (Nat.le_refl _) h

theorem c1_sanitize_label (s : String) :
    (∀ c ∈ (sanitize_label s).data,
      c ≠ '\x22' ∧ c ≠ '\x5c' ∧ c ≠ '\x7b' ∧ c ≠ '\x7d' ∧ c ≠ '\x5b' ∧ c ≠ '\x5d') ∧
    (containsSub ['d', 'm', 's'] (sanitize_label s).data = false →
      sanitize_label (sanitize_label s) = sanitize_label s) := by
  have hdata : (sanitize_label s).data = sanitizeL s.data := by
    rw [sanitize_label]
  constructor
  · intro c hc
    rw [hdata] at hc
    refine ⟨fun h => ?_, fun h => ?_, fun h => ?_, fun h => ?_, fun h => ?_, fun h => ?_⟩
    · exact banned_not_mem_sanitizeL s.data '\x22' (by decide) (h ▸ hc)
    · exact banned_not_mem_sanitizeL s.data '\x5c' (by decide) (h ▸ hc)
    · exact banned_not_mem_sanitizeL s.data '\x7b' (by decide) (h ▸ hc)
    · exact banned_not_mem_sanitizeL s.data '\x7d' (by decide) (h ▸ hc)
    · exact banned_not_mem_sanitizeL s.data '\x5b' (by decide) (h ▸ hc)
    · exact banned_not_mem_sanitizeL s.data '\x5d' (by decide) (h ▸ hc)
  · intro hnd
    rw [hdata] at hnd
    have hB : ∀ b ∈ (['\x22', '\x5c', '\x7b', '\x7d', '\x5b', '\x5d'] : List Char),
        b ∉ sanitizeL s.data :=
      fun b hb => banned_not_mem_sanitizeL s.data b hb
    have hNorm : wsNormal (sanitizeL s.data) = true := wsNormal_sanitizeL s.data
    have hlen : (sanitizeL s.data).length ≤ 120 := length_truncate120_le _
    rw [sanitize_label, sanitize_label, string_mk_data]
    generalize sanitizeL s.data = u at hnd hB hNorm hlen ⊢
    have hfix : sanitizeL u = u := by
      have h1 : stripChars u = u := stripChars_of_clean u hB hnd
      show truncate120 (collapseWs (stripChars u)) = u
      rw [h1, collapseWs_of_normal u hNorm]
      exact truncate120_of_le u hlen
    rw [hfix]

/-- C1 counterexample: sanitize_label is NOT idempotent as claimed.
Removing the substring "dms" from "ddmsms" leaves "dms", which a second
sanitization removes. -/
theorem c1_counterexample :
    sanitize_label (sanitize_label "ddmsms") ≠ sanitize_label "ddmsms" ∧
    sanitize_label "ddmsms" = "dms" ∧ sanitize_label (sanitize_label "ddmsms") = "" := by
  refine ⟨?_, by decide, by decide⟩
  decide

/-- C1 witness: the amended idempotence applied at a concrete label. -/
theorem c1_witness :
    containsSub ['d', 'm', 's'] (sanitize_label "Load record :Shift").data = false ∧
    sanitize_label (sanitize_label "Load record :Shift") = sanitize_label "Load record :Shift" :=
  ⟨by decide, (c1_sanitize_label "Load record :Shift").2 (by decide)⟩

/- ===== Schema-tolerant extractor: load_steps ===== -/

/-- Whether a list element looks like a step: a mapping with a truthy
value under "_id" or "id". -/
def isStepLike (item : Json) : Bool :=
  match item with
  | .obj kvs => truthy (pyOr (jget kvs "_id") (jget kvs "id"))
  | _ => false

/-- The step-like elements of a value, when it is a list. -/
def stepLikeOf (v : Json) : List Json :=
  match v with
  | .arr xs => xs.toList.filter isStepLike
  | _ => []

mutual
/-- _collect_steps_anywhere: gather the step-like elements of every list
stored under a key named "steps", at any depth, in document walk order
(per mapping entry: the matched list's elements first, then the recursion
into the value). -/
def collectSteps : Json → List Json
  | .obj kvs => collectStepsObj kvs
  | .arr xs => collectStepsArr xs
  | _ => []

def collectStepsObj : JObj → List Json
  | .nil => []
  | .cons k v rest =>
      (if k == "steps" then stepLikeOf v else []) ++ collectSteps v ++ collectStepsObj rest

def collectStepsArr : JList → List Json
  | .nil => []
  | .cons x xs => collectSteps x ++ collectStepsArr xs
end

/-- The identifier selected for a step record: `s.get("_id") or s.get("id")`. -/
def stepKey (s : Json) : Json := pyOr (jgetJ s "_id") (jgetJ s "id")

/-- The by_id dictionary fold of load_steps: keep the first occurrence of
each truthy identifier; `sid not in by_id` raises on an unhashable id. -/
def load_steps_go : List Json → List (Json × Json) → Except Unit (List (Json × Json))
  | [], acc => .ok acc
  | s :: rest, acc =>
      if truthy (stepKey s) then
        if hashable (stepKey s) then
          if acc.any (fun p => decide (p.1 = stepKey s)) then load_steps_go rest acc
          else load_steps_go rest (acc ++ [(stepKey s, s)])
        else .error ()
      else load_steps_go rest acc

/-- load_steps: collect all step objects from anywhere in the tree, then
dedupe by identifier keeping the first occurrence. -/
def load_steps (data : Json) : Except Unit (List Json) :=
  match load_steps_go (collectSteps data) [] with
  | .ok idx => .ok (idx.map (fun p => p.2))
  | .error e => .error e

/- ===== load_table_queries ===== -/

/-- The shape test of the fallback scan in load_table_queries: the list is
non-empty, every element is a mapping, and at least one element carries
both an "aggregations" and a "label" key. -/
def tqMatch (xs : List Json) : Bool :=
  !xs.isEmpty &&
  xs.all (fun it => match it with | .obj _ => true | _ => false) &&
  xs.any (fun it => hasKey it "aggregations" && hasKey it "label")

mutual
/-- The recursive fallback scan of load_table_queries: collect the whole
contents of every matching list stored as a mapping value, recursing into
every value. -/
def collectTq : Json → List Json
  | .obj kvs => collectTqObj kvs
  | .arr xs => collectTqArr xs
  | _ => []

def collectTqObj : JObj → List Json
  | .nil => []
  | .cons _ v rest =>
      (match v with
       | .arr xs => if tqMatch xs.toList then xs.toList else []
       | _ => []) ++ collectTq v ++ collectTqObj rest

def collectTqArr : JList → List Json
  | .nil => []
  | .cons x xs => collectTq x ++ collectTqArr xs
end

/-- The direct top-level probe of load_table_queries: concatenate the list
values of the three recognised keys. -/
def tqTop (data : Json) : List Json :=
  match data with
  | .obj kvs =>
      (match jget kvs "table_queries" with | .arr xs => xs.toList | _ => []) ++
      (match jget kvs "tableQueries" with | .arr xs => xs.toList | _ => []) ++
      (match jget kvs "app_table_queries" with | .arr xs => xs.toList | _ => [])
  | _ => []

/-- load_table_queries: the top-level keys first; if they produced nothing,
the recursive fallback scan. -/
def load_table_queries (data : Json) : List Json :=
  if (tqTop data).isEmpty then collectTq data else tqTop data

/-- Modelled from the claim's words (C2): the same scan but collecting
only lists whose elements ALL carry both an "aggregations" field and a
"label" field.  Compared against the source's collectTq, whose condition
is "at least one element". -/
def tqMatchAllSpec (xs : List Json) : Bool :=
  !xs.isEmpty && xs.all (fun it => hasKey it "aggregations" && hasKey it "label")

mutual
def collectTqAllSpec : Json → List Json
  | .obj kvs => collectTqAllSpecObj kvs
  | .arr xs => collectTqAllSpecArr xs
  | _ => []

def collectTqAllSpecObj : JObj → List Json
  | .nil => []
  | .cons _ v rest =>
      (match v with
       | .arr xs => if tqMatchAllSpec xs.toList then xs.toList else []
       | _ => []) ++ collectTqAllSpec v ++ collectTqAllSpecObj rest

def collectTqAllSpecArr : JList → List Json
  | .nil => []
  | .cons x xs => collectTqAllSpec x ++ collectTqAllSpecArr xs
end

example :
    load_steps (jobj [("steps", jarr [jobj [("_id", .str "s1"), ("name", .str "A")]]),
      ("inner", jobj [("steps", jarr [jobj [("_id", .str "s1"), ("name", .str "B")],
        jobj [("_id", .str "s2")]])])]) =
    .ok [jobj [("_id", .str "s1"), ("name", .str "A")], jobj [("_id", .str "s2")]] := by
  rfl

example :
    load_table_queries (jobj [("k", jarr [jobj [("aggregations", jarr []),
      ("label", .str "L")], jobj []])]) =
    [jobj [("aggregations", jarr []), ("label", .str "L")], jobj []] := by rfl

/- ===== lemmas about load_steps ===== -/

mutual
theorem collectSteps_stepLike :
    ∀ (j : Json) (s : Json), s ∈ collectSteps j → isStepLike s = true
  | .null, s => fun h => absurd h (List.not_mem_nil s)
  | .bool _, s => fun h => absurd h (List.not_mem_nil s)
  | .num _, s => fun h => absurd h (List.not_mem_nil s)
  | .str _, s => fun h => absurd h (List.not_mem_nil s)
  | .arr xs, s => fun h => collectStepsArr_stepLike xs s h
  | .obj kvs, s => fun h => collectStepsObj_stepLike kvs s h

theorem collectStepsObj_stepLike :
    ∀ (kvs : JObj) (s : Json), s ∈ collectStepsObj kvs → isStepLike s = true
  | .nil, s => fun h => absurd h (List.not_mem_nil s)
  | .cons k v rest, s => fun h => by
      rw [collectStepsObj] at h
      rcases List.mem_append.mp h with h | h
      · rcases List.mem_append.mp h with h | h
        · by_cases hk : (k == "steps") = true
          · rw [if_pos hk] at h
            cases v with
            | arr xs =>
                rw [stepLikeOf] at h
                exact (List.mem_filter.mp h).2
            | null => exact absurd h (List.not_mem_nil s)
            | bool b => exact absurd h (List.not_mem_nil s)
            | num n => exact absurd h (List.not_mem_nil s)
            | str t => exact absurd h (List.not_mem_nil s)
            | obj o => exact absurd h (List.not_mem_nil s)
          · rw [if_neg hk] at h
            exact absurd h (List.not_mem_nil s)
        · exact collectSteps_stepLike v s h
      · exact collectStepsObj_stepLike rest s h

theorem collectStepsArr_stepLike :
    ∀ (xs : JList) (s : Json), s ∈ collectStepsArr xs → isStepLike s = true
  | .nil, s => fun h => absurd h (List.not_mem_nil s)
  | .cons x xs, s => fun h => by
      rw [collectStepsArr] at h
      rcases List.mem_append.mp h with h | h
      · exact collectSteps_stepLike x s h
      · exact collectStepsArr_stepLike xs s h
end

theorem truthy_stepKey_of_stepLike (s : Json) (h : isStepLike s = true) :
    truthy (stepKey s) = true := by
  cases s with
  | obj kvs => exact h
  | null => exact Bool.noConfusion h
  | bool b => exact Bool.noConfusion h
  | num n => exact Bool.noConfusion h
  | str t => exact Bool.noConfusion h
  | arr xs => exact Bool.noConfusion h

/-- First-some choice on options, used to state dictionary lookups. -/
def oalt {α : Type} : Option α → Option α → Option α
  | some x, _ => some x
  | none, b => b

theorem oalt_none {α : Type} (b : Option α) : oalt none b = b := rfl

theorem oalt_some {α : Type} (x : α) (b : Option α) : oalt (some x) b = some x := rfl

theorem oalt_assoc {α : Type} (a b c : Option α) :
    oalt (oalt a b) c = oalt a (oalt b c) := by
  cases a <;> cases b <;> rfl

theorem oalt_absorb {α : Type} (a : Option α) (x : α) (c : Option α) :
    oalt (oalt a (some x)) c = oalt a (some x) := by
  cases a <;> rfl

theorem find?_congr_pred {α : Type} (p q : α → Bool) :
    ∀ l : List α, (∀ x ∈ l, p x = q x) → l.find? p = l.find? q := by
  intro l
  induction l with
  | nil => intro _; rfl
  | cons a l ih =>
      intro h
      rw [List.find?_cons, List.find?_cons, h a (List.mem_cons_self a l),
        ih (fun x hx => h x (List.mem_cons_of_mem a hx))]

theorem find?_map_snd {α β : Type} (f : α → β) (p : β → Bool) :
    ∀ l : List α, (l.map f).find? p = (l.find? (fun x => p (f x))).map f := by
  intro l
  induction l with
  | nil => rfl
  | cons a l ih =>
      rw [List.map_cons, List.find?_cons, List.find?_cons]
      by_cases h : p (f a) = true
      · rw [h]; rfl
      · rw [Bool.not_eq_true] at h
        rw [h, ih]

theorem find?_append_oalt {α : Type} (p : α → Bool) :
    ∀ l₁ l₂ : List α, (l₁ ++ l₂).find? p = oalt (l₁.find? p) (l₂.find? p) := by
  intro l₁
  induction l₁ with
  | nil => intro l₂; rfl
  | cons a l ih =>
      intro l₂
      rw [List.cons_append, List.find?_cons, List.find?_cons]
      by_cases h : p a = true
      · rw [h]; rfl
      · rw [Bool.not_eq_true] at h
        rw [h, ih]

theorem any_false_find?_none {α : Type} (p : α → Bool) (l : List α)
    (h : l.any p = false) : l.find? p = none := by
  rw [List.find?_eq_none]
  intro x hx hpx
  have hno : l.any p = true := List.any_eq_true.mpr ⟨x, hx, hpx⟩
  rw [h] at hno
  exact Bool.noConfusion hno

theorem any_true_find?_some {α : Type} (p : α → Bool) (l : List α)
    (h : l.any p = true) : ∃ x, l.find? p = some x := by
  rw [List.any_eq_true] at h
  obtain ⟨x, hx, hpx⟩ := h
  have := List.find?_isSome.mpr ⟨x, hx, hpx⟩
  cases hf : l.find? p with
  | none => rw [hf] at this; exact absurd this (by simp)
  | some y => exact ⟨y, rfl⟩

theorem load_steps_go_entry :
    ∀ (l : List Json) (acc out : List (Json × Json)),
      load_steps_go l acc = .ok out →
      (∀ p ∈ acc, p.1 = stepKey p.2) → ∀ p ∈ out, p.1 = stepKey p.2 := by
  intro l
  induction l with
  | nil =>
      intro acc out h hacc
      rw [load_steps_go] at h
      cases h
      exact hacc
  | cons s rest ih =>
      intro acc out h hacc
      rw [load_steps_go] at h
      by_cases ht : truthy (stepKey s) = true
      · rw [if_pos ht] at h
        by_cases hh : hashable (stepKey s) = true
        · rw [if_pos hh] at h
          by_cases hp : (acc.any fun p => decide (p.1 = stepKey s)) = true
          · rw [if_pos hp] at h
            exact ih acc out h hacc
          · rw [if_neg hp] at h
            refine ih _ out h ?_
            intro p hpmem
            rcases List.mem_append.mp hpmem with hm | hm
            · exact hacc p hm
            · rcases List.mem_singleton.mp hm with rfl
              rfl
        · rw [if_neg hh] at h
          cases h
      · rw [if_neg ht] at h
        exact ih acc out h hacc

theorem load_steps_go_nodup :
    ∀ (l : List Json) (acc out : List (Json × Json)),
      load_steps_go l acc = .ok out →
      (acc.map Prod.fst).Nodup → (out.map Prod.fst).Nodup := by
  intro l
  induction l with
  | nil =>
      intro acc out h hacc
      rw [load_steps_go] at h
      cases h
      exact hacc
  | cons s rest ih =>
      intro acc out h hacc
      rw [load_steps_go] at h
      by_cases ht : truthy (stepKey s) = true
      · rw [if_pos ht] at h
        by_cases hh : hashable (stepKey s) = true
        · rw [if_pos hh] at h
          by_cases hp : (acc.any fun p => decide (p.1 = stepKey s)) = true
          · rw [if_pos hp] at h
            exact ih acc out h hacc
          · rw [if_neg hp] at h
            refine ih _ out h ?_
            rw [List.map_append, List.map_singleton]
            rw [List.nodup_append]
            refine ⟨hacc, List.nodup_singleton _, ?_⟩
            intro a ha hb
            rcases List.mem_singleton.mp hb with rfl
            rcases List.mem_map.mp ha with ⟨p, hpm, hpfst⟩
            rw [Bool.not_eq_true] at hp
            have := any_false_find?_none _ acc hp
            rw [List.find?_eq_none] at this
            exact this p hpm (by simp [hpfst])
        · rw [if_neg hh] at h
          cases h
      · rw [if_neg ht] at h
        exact ih acc out h hacc

theorem load_steps_go_find :
    ∀ (l : List Json) (acc out : List (Json × Json)) (k : Json),
      load_steps_go l acc = .ok out →
      out.find? (fun p => decide (p.1 = k)) =
        oalt (acc.find? (fun p => decide (p.1 = k)))
          ((l.find? (fun s => truthy (stepKey s) && decide (stepKey s = k))).map
            (fun s => (k, s))) := by
  intro l
  induction l with
  | nil =>
      intro acc out k h
      rw [load_steps_go] at h
      cases h
      rw [List.find?_nil, Option.map_none']
      cases acc.find? (fun p => decide (p.1 = k)) <;> rfl
  | cons s rest ih =>
      intro acc out k h
      rw [load_steps_go] at h
      rw [List.find?_cons]
      by_cases ht : truthy (stepKey s) = true
      · rw [if_pos ht] at h
        by_cases hh : hashable (stepKey s) = true
        · rw [if_pos hh] at h
          by_cases hp : (acc.any fun p => decide (p.1 = stepKey s)) = true
          · rw [if_pos hp] at h
            have hrec := ih acc out k h
            by_cases hk : stepKey s = k
            · rw [show (truthy (stepKey s) && decide (stepKey s = k)) = true by
                rw [show truthy (stepKey s) = true from ht, hk]; simp]
              obtain ⟨x, hx⟩ := any_true_find?_some _ acc hp
              rw [hk] at hx
              rw [hrec, hx, oalt_some, oalt_some]
            · rw [show (truthy (stepKey s) && decide (stepKey s = k)) = false by
                simp [hk]]
              exact hrec
          · rw [if_neg hp] at h
            have hrec := ih _ out k h
            rw [find?_append_oalt] at hrec
            by_cases hk : stepKey s = k
            · rw [show (truthy (stepKey s) && decide (stepKey s = k)) = true by
                rw [show truthy (stepKey s) = true from ht, hk]; simp]
              rw [hrec]
              rw [show ([(stepKey s, s)].find? fun p => decide (p.1 = k)) =
                some (stepKey s, s) by simp [List.find?_cons, hk]]
              rw [oalt_absorb, hk, Option.map_some']
            · rw [show (truthy (stepKey s) && decide (stepKey s = k)) = false by
                simp [hk]]
              rw [hrec]
              rw [show ([(stepKey s, s)].find? fun p => decide (p.1 = k)) = none by
                simp [List.find?_cons, hk]]
              cases acc.find? (fun p => decide (p.1 = k)) <;> rfl
        · rw [if_neg hh] at h
          cases h
      · rw [if_neg ht] at h
        rw [show (truthy (stepKey s) && decide (stepKey s = k)) = false by
          simp [Bool.not_eq_true] at ht
          simp [ht]]
        exact ih acc out k h

/-- C3: for every JSON document on which load_steps returns, the returned
step collection has pairwise-distinct selected identifiers, and for every
identifier its entry (found via find?) is exactly the first step-like
element with that identifier in the document walk order of the recursive
"steps"-list scan. -/
theorem c3_load_steps (data : Json) (res : List Json) (h : load_steps data = .ok res) :
    (res.map stepKey).Nodup ∧
    ∀ k : Json, res.find? (fun s => decide (stepKey s = k)) =
      (collectSteps data).find? (fun s => decide (stepKey s = k)) := by
  rw [load_steps] at h
  cases hgo : load_steps_go (collectSteps data) [] with
  | error e => rw [hgo] at h; exact Except.noConfusion h
  | ok idx =>
      rw [hgo] at h
      injection h with hres
      subst hres
      have hent : ∀ p ∈ idx, p.1 = stepKey p.2 :=
        load_steps_go_entry _ [] idx hgo
          (fun p hp => absurd hp (List.not_mem_nil p))
      constructor
      · have hnd : (idx.map Prod.fst).Nodup :=
          load_steps_go_nodup _ [] idx hgo (by simp)
        have hmm : (idx.map (fun p => p.2)).map stepKey = idx.map Prod.fst := by
          rw [List.map_map]
          apply List.map_congr_left
          intro p hp
          exact (hent p hp).symm
        rw [hmm]
        exact hnd
      · intro k
        rw [find?_map_snd]
        have h1 : (idx.find? fun x => decide (stepKey x.2 = k)) =
            (idx.find? fun p => decide (p.1 = k)) := by
          apply find?_congr_pred
          intro p hp
          rw [hent p hp]
        rw [h1, load_steps_go_find _ [] idx k hgo, List.find?_nil, oalt_none]
        have h2 : ((collectSteps data).find? fun s =>
            truthy (stepKey s) && decide (stepKey s = k)) =
            (collectSteps data).find? fun s => decide (stepKey s = k) := by
          apply find?_congr_pred
          intro s hs
          rw [truthy_stepKey_of_stepLike s (collectSteps_stepLike data s hs), Bool.true_and]
        rw [h2]
        cases (collectSteps data).find? fun s => decide (stepKey s = k) <;> rfl

/-- C3 witness: a document with the same step identifier in two nested
"steps" lists; the collection keeps the first occurrence and dedupes. -/
theorem c3_witness :
    load_steps (jobj [("steps", jarr [jobj [("_id", .str "s1"), ("name", .str "A")],
        jobj [("_id", .str "s2")]]),
      ("g", jobj [("steps", jarr [jobj [("_id", .str "s1"), ("name", .str "B")]])])]) =
      .ok [jobj [("_id", .str "s1"), ("name", .str "A")], jobj [("_id", .str "s2")]] ∧
    (([jobj [("_id", .str "s1"), ("name", .str "A")],
        jobj [("_id", .str "s2")]].map stepKey).Nodup) ∧
    ([jobj [("_id", .str "s1"), ("name", .str "A")],
        jobj [("_id", .str "s2")]].find? (fun s => decide (stepKey s = .str "s1")) =
      (collectSteps (jobj [("steps", jarr [jobj [("_id", .str "s1"), ("name", .str "A")],
          jobj [("_id", .str "s2")]]),
        ("g", jobj [("steps", jarr [jobj [("_id", .str "s1"),
          ("name", .str "B")]])])])).find? (fun s => decide (stepKey s = .str "s1"))) := by
  have H := c3_load_steps
    (jobj [("steps", jarr [jobj [("_id", .str "s1"), ("name", .str "A")],
        jobj [("_id", .str "s2")]]),
      ("g", jobj [("steps", jarr [jobj [("_id", .str "s1"), ("name", .str "B")]])])])
    [jobj [("_id", .str "s1"), ("name", .str "A")], jobj [("_id", .str "s2")]] rfl
  exact ⟨rfl, H.1, H.2 (.str "s1")⟩

/-- C2 counterexample: with no recognised top-level key, the fallback scan
collects a list in which one element (the empty mapping) carries neither an
"aggregations" nor a "label" field — because the source tests `any`, not
`all`; the claim predicts that this list contributes nothing (the
claim-worded scan collectTqAllSpec indeed returns []). -/
theorem c2_counterexample :
    load_table_queries (jobj [("k", jarr [jobj [("aggregations", jarr []),
        ("label", .str "L")], jobj []])]) =
      [jobj [("aggregations", jarr []), ("label", .str "L")], jobj []] ∧
    hasKey (jobj []) "aggregations" = false ∧
    collectTqAllSpec (jobj [("k", jarr [jobj [("aggregations", jarr []),
        ("label", .str "L")], jobj []])]) = [] :=
  ⟨rfl, rfl, rfl⟩

/-- C2 (amended): when none of the recognised top-level table-query keys
holds a list, load_table_queries is the recursive fallback scan, and that
scan's match condition holds exactly for the non-empty lists of mappings in
which AT LEAST ONE element carries both an "aggregations" field and a
"label" field (a matched list is contributed wholesale, elements lacking
the fields included). -/
theorem c2_load_table_queries (data : Json)
    (h : ∀ k ∈ (["table_queries", "tableQueries", "app_table_queries"] : List String),
      ∀ xs : JList, jgetJ data k ≠ .arr xs) :
    load_table_queries data = collectTq data ∧
    ∀ xs : List Json, tqMatch xs = true ↔
      (xs ≠ [] ∧ (∀ it ∈ xs, ∃ kvs, it = .obj kvs) ∧
        ∃ it ∈ xs, hasKey it "aggregations" = true ∧ hasKey it "label" = true) := by
  have htop : tqTop data = [] := by
    cases data with
    | obj kvs =>
        have h1 : ∀ xs : JList, jget kvs "table_queries" ≠ .arr xs :=
          fun xs => h "table_queries" (by decide) xs
        have h2 : ∀ xs : JList, jget kvs "tableQueries" ≠ .arr xs :=
          fun xs => h "tableQueries" (by decide) xs
        have h3 : ∀ xs : JList, jget kvs "app_table_queries" ≠ .arr xs :=
          fun xs => h "app_table_queries" (by decide) xs
        have e1 : (match jget kvs "table_queries" with
            | .arr xs => xs.toList | _ => ([] : List Json)) = [] := by
          cases hv : jget kvs "table_queries"
          case arr xs => exact absurd hv (h1 xs)
          all_goals rfl
        have e2 : (match jget kvs "tableQueries" with
            | .arr xs => xs.toList | _ => ([] : List Json)) = [] := by
          cases hv : jget kvs "tableQueries"
          case arr xs => exact absurd hv (h2 xs)
          all_goals rfl
        have e3 : (match jget kvs "app_table_queries" with
            | .arr xs => xs.toList | _ => ([] : List Json)) = [] := by
          cases hv : jget kvs "app_table_queries"
          case arr xs => exact absurd hv (h3 xs)
          all_goals rfl
        show (match jget kvs "table_queries" with
            | .arr xs => xs.toList | _ => ([] : List Json)) ++
          (match jget kvs "tableQueries" with
            | .arr xs => xs.toList | _ => ([] : List Json)) ++
          (match jget kvs "app_table_queries" with
            | .arr xs => xs.toList | _ => ([] : List Json)) = []
        rw [e1, e2, e3]
        rfl
    | null => rfl
    | bool b => rfl
    | num n => rfl
    | str t => rfl
    | arr xs => rfl
  constructor
  · rw [load_table_queries, htop]
    rfl
  · intro xs
    rw [tqMatch, Bool.and_eq_true, Bool.and_eq_true]
    constructor
    · rintro ⟨⟨hne, hall⟩, hany⟩
      refine ⟨?_, ?_, ?_⟩
      · intro hxs
        subst hxs
        exact Bool.noConfusion hne
      · intro it hit
        have hm := List.all_eq_true.mp hall it hit
        cases it with
        | obj kvs => exact ⟨kvs, rfl⟩
        | null => exact Bool.noConfusion hm
        | bool b => exact Bool.noConfusion hm
        | num n => exact Bool.noConfusion hm
        | str t => exact Bool.noConfusion hm
        | arr ys => exact Bool.noConfusion hm
      · obtain ⟨it, hit, hb⟩ := List.any_eq_true.mp hany
        rw [Bool.and_eq_true] at hb
        exact ⟨it, hit, hb⟩
    · rintro ⟨hne, hall, it, hit, hf1, hf2⟩
      refine ⟨⟨?_, ?_⟩, ?_⟩
      · cases xs with
        | nil => exact absurd rfl hne
        | cons y ys => rfl
      · rw [List.all_eq_true]
        intro x hx
        obtain ⟨kvs, rfl⟩ := hall x hx
        rfl
      · exact List.any_eq_true.mpr ⟨it, hit, by rw [Bool.and_eq_true]; exact ⟨hf1, hf2⟩⟩

/-- C2 witness: the amended characterisation applied to a document with no
recognised top-level table-query key. -/
theorem c2_witness :
    (∀ k ∈ (["table_queries", "tableQueries", "app_table_queries"] : List String),
      ∀ xs : JList, jgetJ (jobj [("x", .num 1), ("k", jarr [jobj [("aggregations", jarr []),
        ("label", .str "L")], jobj []])]) k ≠ .arr xs) ∧
    load_table_queries (jobj [("x", .num 1), ("k", jarr [jobj [("aggregations", jarr []),
        ("label", .str "L")], jobj []])]) =
      collectTq (jobj [("x", .num 1), ("k", jarr [jobj [("aggregations", jarr []),
        ("label", .str "L")], jobj []])]) := by
  have hk : ∀ k ∈ (["table_queries", "tableQueries", "app_table_queries"] : List String),
      ∀ xs : JList, jgetJ (jobj [("x", .num 1), ("k", jarr [jobj [("aggregations", jarr []),
        ("label", .str "L")], jobj []])]) k ≠ .arr xs := by
    intro k hkmem xs heq
    fin_cases hkmem <;> exact Json.noConfusion heq
  exact ⟨hk, (c2_load_table_queries _ hk).1⟩

/- ===== index_by_id ===== -/

/-- The identifier index_by_id selects for an element, when truthy:
`item.get("_id") or item.get("id")`. -/
def idKeyOf (it : Json) : Option Json :=
  if truthy (pyOr (jgetJ it "_id") (jgetJ it "id")) then
    some (pyOr (jgetJ it "_id") (jgetJ it "id"))
  else none

/-- Python dict assignment `idx[k] = v` on an insertion-ordered dict:
overwrite in place when the key is present, append otherwise. -/
def idxInsert (acc : JDict) (k v : Json) : JDict :=
  if acc.any (fun p => decide (p.1 = k)) then
    acc.map (fun p => if p.1 = k then (k, v) else p)
  else acc ++ [(k, v)]

/-- The loop of index_by_id; raises when an item is not a mapping or a
truthy identifier is unhashable. -/
def index_by_id_go : List Json → JDict → Except Unit JDict
  | [], acc => .ok acc
  | it :: rest, acc =>
      match it with
      | .obj kvs =>
          if truthy (pyOr (jget kvs "_id") (jget kvs "id")) then
            if hashable (pyOr (jget kvs "_id") (jget kvs "id")) then
              index_by_id_go rest (idxInsert acc (pyOr (jget kvs "_id") (jget kvs "id")) it)
            else .error ()
          else index_by_id_go rest acc
      | _ => .error ()

/-- index_by_id: map each element's identifier to the element; elements
without a truthy identifier are dropped. -/
def index_by_id (items : List Json) : Except Unit JDict := index_by_id_go items []

theorem getLast?_cons_oalt {α : Type} (x : α) :
    ∀ l : List α, (x :: l).getLast? = oalt l.getLast? (some x) := by
  intro l
  induction l generalizing x with
  | nil => rfl
  | cons y l ih =>
      rw [List.getLast?_cons_cons, ih y]
      cases l.getLast? <;> rfl

theorem oalt_none_right {α : Type} (a : Option α) : oalt a none = a := by
  cases a <;> rfl

theorem idxInsert_find_self (acc : JDict) (i v : Json) :
    (idxInsert acc i v).find? (fun p => decide (p.1 = i)) = some (i, v) := by
  rw [idxInsert]
  by_cases hany : (acc.any fun p => decide (p.1 = i)) = true
  · rw [if_pos hany]
    induction acc with
    | nil => exact Bool.noConfusion hany
    | cons p ps ih =>
        rw [List.map_cons, List.find?_cons]
        by_cases hp : p.1 = i
        · rw [if_pos hp]
          simp
        · rw [if_neg hp]
          rw [show (decide (p.1 = i)) = false by simp [hp]]
          apply ih
          rw [List.any_cons] at hany
          rw [show (decide (p.1 = i)) = false by simp [hp]] at hany
          simpa using hany
  · rw [if_neg hany]
    rw [find?_append_oalt]
    rw [any_false_find?_none _ acc (Bool.not_eq_true _ ▸ (by simpa using hany)), oalt_none]
    simp [List.find?_cons]

theorem idxInsert_find_other (acc : JDict) (i v k : Json) (hk : k ≠ i) :
    (idxInsert acc i v).find? (fun p => decide (p.1 = k)) =
      acc.find? (fun p => decide (p.1 = k)) := by
  rw [idxInsert]
  by_cases hany : (acc.any fun p => decide (p.1 = i)) = true
  · rw [if_pos hany]
    clear hany
    induction acc with
    | nil => rfl
    | cons p ps ih =>
        rw [List.map_cons, List.find?_cons, List.find?_cons]
        by_cases hp : p.1 = i
        · rw [if_pos hp]
          rw [show (decide ((i, v).1 = k)) = false by simp [Ne.symm hk]]
          rw [show (decide (p.1 = k)) = false by rw [hp]; simp [Ne.symm hk]]
          exact ih
        · rw [if_neg hp]
          by_cases hq : p.1 = k
          · rw [show (decide (p.1 = k)) = true by simp [hq]]
          · rw [show (decide (p.1 = k)) = false by simp [hq]]
            exact ih
  · rw [if_neg hany]
    rw [find?_append_oalt]
    rw [show ([(i, v)].find? fun p => decide (p.1 = k)) = none by
      simp [List.find?_cons, Ne.symm hk]]
    exact oalt_none_right _

theorem index_go_find :
    ∀ (l : List Json) (acc out : JDict) (k : Json),
      index_by_id_go l acc = .ok out →
      (out.find? (fun p => decide (p.1 = k))).map (fun p => p.2) =
        oalt ((l.filter (fun it => decide (idKeyOf it = some k))).getLast?)
          ((acc.find? (fun p => decide (p.1 = k))).map (fun p => p.2)) := by
  intro l
  induction l with
  | nil =>
      intro acc out k h
      rw [index_by_id_go] at h
      cases h
      rw [List.filter_nil, List.getLast?_nil, oalt_none]
  | cons it rest ih =>
      intro acc out k h
      cases it with
      | null => exact Except.noConfusion h
      | bool b => exact Except.noConfusion h
      | num n => exact Except.noConfusion h
      | str t => exact Except.noConfusion h
      | arr xs => exact Except.noConfusion h
      | obj kvs =>
          replace h : (if truthy (pyOr (jget kvs "_id") (jget kvs "id")) then
              (if hashable (pyOr (jget kvs "_id") (jget kvs "id")) then
                index_by_id_go rest
                  (idxInsert acc (pyOr (jget kvs "_id") (jget kvs "id")) (.obj kvs))
              else Except.error ())
            else index_by_id_go rest acc) = Except.ok out := h
          by_cases ht : truthy (pyOr (jget kvs "_id") (jget kvs "id")) = true
          · rw [if_pos ht] at h
            by_cases hh : hashable (pyOr (jget kvs "_id") (jget kvs "id")) = true
            · rw [if_pos hh] at h
              have hid : idKeyOf (.obj kvs) = some (pyOr (jget kvs "_id") (jget kvs "id")) := by
                rw [idKeyOf]
                simp only [jgetJ]
                rw [if_pos ht]
              by_cases hk2 : pyOr (jget kvs "_id") (jget kvs "id") = k
              · rw [List.filter_cons_of_pos (by rw [hid, hk2]; simp)]
                rw [getLast?_cons_oalt, ih _ out k h]
                rw [hk2] at hh ⊢
                rw [show idxInsert acc k (Json.obj kvs) =
                  idxInsert acc k (Json.obj kvs) from rfl]
                rw [idxInsert_find_self acc k (Json.obj kvs)]
                rw [Option.map_some']
                rw [oalt_absorb]
              · rw [List.filter_cons_of_neg (by rw [hid]; simp [hk2])]
                rw [ih _ out k h]
                rw [idxInsert_find_other acc _ _ k (fun hcc => hk2 hcc.symm)]
            · rw [if_neg hh] at h
              exact Except.noConfusion h
          · rw [if_neg ht] at h
            have hid : idKeyOf (.obj kvs) = none := by
              rw [idKeyOf]
              simp only [jgetJ]
              rw [if_neg ht]
            rw [List.filter_cons_of_neg (by rw [hid]; simp)]
            exact ih acc out k h

/-- C9: when index_by_id returns, looking an identifier up in the index
yields exactly the LAST element of the collection carrying that truthy
identifier (later occurrences overwrite earlier ones), and elements with
no truthy identifier are never indexed; unlike load_steps, which keeps the
first occurrence. -/
theorem c9_index_by_id (items : List Json) (idx : JDict) (h : index_by_id items = .ok idx) :
    ∀ k : Json,
      (idx.find? (fun p => decide (p.1 = k))).map (fun p => p.2) =
        (items.filter (fun it => decide (idKeyOf it = some k))).getLast? := by
  intro k
  have hgo := index_go_find items [] idx k h
  rw [List.find?_nil, Option.map_none', oalt_none_right] at hgo
  exact hgo

/-- C9 witness: two elements share the identifier "x"; the index maps "x"
to the second, and the id-less element is dropped. -/
theorem c9_witness :
    index_by_id [jobj [("_id", .str "x"), ("n", .num 1)],
      jobj [("_id", .str "x"), ("n", .num 2)], jobj [("nid", .num 3)]] =
      .ok [(.str "x", jobj [("_id", .str "x"), ("n", .num 2)])] ∧
    (([((.str "x" : Json), jobj [("_id", .str "x"), ("n", .num 2)])].find?
        (fun p => decide (p.1 = .str "x"))).map (fun p => p.2) =
      ([jobj [("_id", .str "x"), ("n", .num 1)],
        jobj [("_id", .str "x"), ("n", .num 2)],
        jobj [("nid", .num 3)]].filter
          (fun it => decide (idKeyOf it = some (.str "x")))).getLast?) := by
  have H := c9_index_by_id
    [jobj [("_id", .str "x"), ("n", .num 1)],
      jobj [("_id", .str "x"), ("n", .num 2)], jobj [("nid", .num 3)]]
    [(.str "x", jobj [("_id", .str "x"), ("n", .num 2)])] rfl
  exact ⟨rfl, H (.str "x")⟩

/- ===== Reference resolver: describe_input_value ===== -/

/-- The resolution context: the three reference indices built in main(). -/
structure Ctx where
  tq_index : JDict
  var_index : JDict
  dms_index : JDict

/-- The loop over a table query's aggregations: the first one whose
"aggregationVersionSetId" equals vs_id yields `label or aggregationId`,
null when none matches; raises when an element is not a mapping. -/
def aggFind (vs_id : Json) : List Json → Except Unit Json
  | [] => .ok .null
  | agg :: rest =>
      match agg with
      | .obj akvs =>
          if jget akvs "aggregationVersionSetId" = vs_id then
            .ok (pyOr (jget akvs "label") (jget akvs "aggregationId"))
          else aggFind vs_id rest
      | _ => .error ()

/-- The tail of describe_input_value: the static branch, the expression
check, and the final `return ds or "?"`. -/
def describe_tail (kvs : JObj) : Except Unit Json :=
  if jget kvs "datasourceType" = .str "static" ∧ jhas kvs "value" = true then
    .ok (.str ("static:" ++ pyStr (jget kvs "value")))
  else if truthy (pyOr (jget kvs "exprStr") (jget kvs "expression")) then
    .ok (.str "expr")
  else
    .ok (pyOr (jget kvs "datasourceType") (.str "?"))

/-- The body of the tableAggregation branch after the index lookup:
`if tq:` walk its aggregations for the matching version set, else keep the
raw query id as the label. -/
def describe_agg_found (kvs : JObj) (tq : Json) : Except Unit Json :=
  if truthy tq then
    match tq with
    | .obj tkvs =>
        match pyIter (if jhas tkvs "aggregations" then jget tkvs "aggregations"
                      else .arr .nil) with
        | .error e => .error e
        | .ok aggs =>
            match aggFind (jget kvs "tableAggregationVersionSetId") aggs with
            | .error e => .error e
            | .ok agg_label =>
                if truthy agg_label then .ok (.str ("agg:" ++ pyStr agg_label))
                else .ok (.str ("agg:" ++
                  pyStr (pyOr (jget tkvs "label") (jget kvs "appTableQueryId"))))
    | _ => .error ()
  else .ok (.str ("agg:" ++ pyStr (jget kvs "appTableQueryId")))

/-- The tableAggregation branch of describe_input_value, falling through
to describe_tail. -/
def describe_after_dms (kvs : JObj) (ctx : Ctx) : Except Unit Json :=
  if jget kvs "datasourceType" = .str "tableAggregation" then
    match (if truthy (jget kvs "appTableQueryId") then
             dictGet ctx.tq_index (jget kvs "appTableQueryId")
           else .ok .null) with
    | .error e => .error e
    | .ok tq => describe_agg_found kvs tq
  else describe_tail kvs

/-- `name = slot.get("name") if slot else slot_id; return f"dms:{name}"`. -/
def describe_slot_found (kvs : JObj) (slot : Json) : Except Unit Json :=
  if truthy slot then
    match slot with
    | .obj skvs => .ok (.str ("dms:" ++ pyStr (jget skvs "name")))
    | _ => .error ()
  else .ok (.str ("dms:" ++ pyStr (jget kvs "dataModelSlot")))

/-- The dataModelSlot branch of describe_input_value. -/
def describe_after_variable (kvs : JObj) (ctx : Ctx) : Except Unit Json :=
  if jget kvs "datasourceType" = .str "dataModelSlot" then
    if truthy (jget kvs "dataModelSlot") then
      match dictGet ctx.dms_index (jget kvs "dataModelSlot") with
      | .error e => .error e
      | .ok slot => describe_slot_found kvs slot
    else describe_after_dms kvs ctx
  else describe_after_dms kvs ctx

/-- `name = var.get("name") if var else var_id; return f"var:{name}"`. -/
def describe_var_found (kvs : JObj) (var : Json) : Except Unit Json :=
  if truthy var then
    match var with
    | .obj vkvs => .ok (.str ("var:" ++ pyStr (jget vkvs "name")))
    | _ => .error ()
  else .ok (.str ("var:" ++ pyStr (pyOr (jget kvs "variableId") (jget kvs "variable"))))

/-- describe_input_value: resolve one Input Value to a short description.
Follows the source's sequential branch structure; Except.error marks
exactly the points where the Python raises (attribute access on a
non-mapping, an unhashable dict key, iterating a non-iterable). -/
def describe_input_value (iv : Json) (ctx : Ctx) : Except Unit Json :=
  match iv with
  | .obj kvs =>
      if jget kvs "datasourceType" = .str "variable" then
        if truthy (pyOr (jget kvs "variableId") (jget kvs "variable")) then
          match dictGet ctx.var_index (pyOr (jget kvs "variableId") (jget kvs "variable")) with
          | .error e => .error e
          | .ok var => describe_var_found kvs var
        else describe_after_variable kvs ctx
      else describe_after_variable kvs ctx
  | _ => .error ()

example :
    describe_input_value (jobj [("datasourceType", .str "variable"), ("variableId", .str "v1")])
      ⟨[], [(.str "v1", jobj [("_id", .str "v1"), ("name", .str "Count")])], []⟩ =
      .ok (.str "var:Count") := rfl

example :
    describe_input_value (jobj [("datasourceType", .str "variable"), ("variableId", .str "v1")])
      ⟨[], [], []⟩ = .ok (.str "var:v1") := rfl

example :
    describe_input_value (jobj [("datasourceType", .str "static"), ("value", .num 5)])
      ⟨[], [], []⟩ = .ok (.str "static:5") := rfl

example :
    describe_input_value (jobj [("datasourceType", .str "variable")]) ⟨[], [], []⟩ =
      .ok (.str "variable") := rfl

example :
    describe_input_value (jobj [("datasourceType", .num 7)]) ⟨[], [], []⟩ =
      .ok (.num 7) := rfl

theorem ne_empty_append (p x : String) (hp : p.length ≠ 0) : p ++ x ≠ "" := by
  intro h
  have hl : (p ++ x).length = 0 := by rw [h]; rfl
  rw [String.length_append] at hl
  omega

theorem jget_of_jhas_false : ∀ (kvs : JObj) (k : String), jhas kvs k = false → jget kvs k = .null
  | .nil, _ => fun _ => rfl
  | .cons a v rest, k => fun h => by
      rw [jhas, Bool.or_eq_false_iff] at h
      rw [jget, if_neg (by simp [h.1]), jget_of_jhas_false rest k h.2]

theorem describe_tail_str (kvs : JObj) (r : Json)
    (h : describe_tail kvs = .ok r)
    (hds : jget kvs "datasourceType" = .null ∨ ∃ t, jget kvs "datasourceType" = .str t) :
    ∃ s : String, r = .str s ∧ s ≠ "" := by
  rw [describe_tail] at h
  split_ifs at h with h1 h2
  · injection h with h
    exact ⟨_, h.symm, ne_empty_append "static:" _ (by decide)⟩
  · injection h with h
    exact ⟨"expr", h.symm, by decide⟩
  · injection h with h
    rcases hds with hds | ⟨t, hds⟩
    · rw [hds] at h
      exact ⟨"?", h.symm, by decide⟩
    · rw [hds, pyOr] at h
      by_cases htr : truthy (.str t) = true
      · rw [if_pos htr] at h
        refine ⟨t, h.symm, ?_⟩
        intro he
        subst he
        exact absurd htr (by decide)
      · rw [if_neg htr] at h
        exact ⟨"?", h.symm, by decide⟩

theorem describe_agg_found_str (kvs : JObj) (tq : Json) (r : Json)
    (h : describe_agg_found kvs tq = .ok r) :
    ∃ s : String, r = .str s ∧ s ≠ "" := by
  cases tq with
  | obj tkvs =>
      replace h : (if truthy (Json.obj tkvs) then
          (match pyIter (if jhas tkvs "aggregations" then jget tkvs "aggregations"
                         else Json.arr JList.nil) with
           | Except.error e => (Except.error e : Except Unit Json)
           | Except.ok aggs =>
               match aggFind (jget kvs "tableAggregationVersionSetId") aggs with
               | Except.error e => Except.error e
               | Except.ok agg_label =>
                   if truthy agg_label then Except.ok (Json.str ("agg:" ++ pyStr agg_label))
                   else Except.ok (Json.str ("agg:" ++
                     pyStr (pyOr (jget tkvs "label") (jget kvs "appTableQueryId")))))
        else Except.ok (Json.str ("agg:" ++ pyStr (jget kvs "appTableQueryId")))) = Except.ok r := h
      by_cases h1 : truthy (Json.obj tkvs) = true
      case neg =>
        rw [if_neg h1] at h
        injection h with h
        exact ⟨_, h.symm, ne_empty_append "agg:" _ (by decide)⟩
      case pos =>
        rw [if_pos h1] at h
        cases hit : pyIter (if jhas tkvs "aggregations" then jget tkvs "aggregations"
            else .arr .nil) with
        | error e => rw [hit] at h; exact Except.noConfusion h
        | ok aggs =>
            rw [hit] at h
            replace h : (match aggFind (jget kvs "tableAggregationVersionSetId") aggs with
               | Except.error e => (Except.error e : Except Unit Json)
               | Except.ok agg_label =>
                   if truthy agg_label then Except.ok (Json.str ("agg:" ++ pyStr agg_label))
                   else Except.ok (Json.str ("agg:" ++
                     pyStr (pyOr (jget tkvs "label") (jget kvs "appTableQueryId"))))) =
              Except.ok r := h
            cases haf : aggFind (jget kvs "tableAggregationVersionSetId") aggs with
            | error e => rw [haf] at h; exact Except.noConfusion h
            | ok agg_label =>
                rw [haf] at h
                replace h : (if truthy agg_label then
                    Except.ok (Json.str ("agg:" ++ pyStr agg_label))
                  else Except.ok (Json.str ("agg:" ++
                    pyStr (pyOr (jget tkvs "label") (jget kvs "appTableQueryId"))))) =
                  Except.ok r := h
                by_cases h3 : truthy agg_label = true
                · rw [if_pos h3] at h
                  injection h with h
                  exact ⟨_, h.symm, ne_empty_append "agg:" _ (by decide)⟩
                · rw [if_neg h3] at h
                  injection h with h
                  exact ⟨_, h.symm, ne_empty_append "agg:" _ (by decide)⟩
  | null =>
      injection h with h
      exact ⟨_, h.symm, ne_empty_append "agg:" _ (by decide)⟩
  | bool b =>
      replace h : (if truthy (Json.bool b) then (Except.error () : Except Unit Json)
          else Except.ok (Json.str ("agg:" ++ pyStr (jget kvs "appTableQueryId")))) = Except.ok r := h
      by_cases h1 : truthy (Json.bool b) = true
      · rw [if_pos h1] at h; exact Except.noConfusion h
      · rw [if_neg h1] at h
        injection h with h
        exact ⟨_, h.symm, ne_empty_append "agg:" _ (by decide)⟩
  | num n =>
      replace h : (if truthy (Json.num n) then (Except.error () : Except Unit Json)
          else Except.ok (Json.str ("agg:" ++ pyStr (jget kvs "appTableQueryId")))) = Except.ok r := h
      by_cases h1 : truthy (Json.num n) = true
      · rw [if_pos h1] at h; exact Except.noConfusion h
      · rw [if_neg h1] at h
        injection h with h
        exact ⟨_, h.symm, ne_empty_append "agg:" _ (by decide)⟩
  | str t =>
      replace h : (if truthy (Json.str t) then (Except.error () : Except Unit Json)
          else Except.ok (Json.str ("agg:" ++ pyStr (jget kvs "appTableQueryId")))) = Except.ok r := h
      by_cases h1 : truthy (Json.str t) = true
      · rw [if_pos h1] at h; exact Except.noConfusion h
      · rw [if_neg h1] at h
        injection h with h
        exact ⟨_, h.symm, ne_empty_append "agg:" _ (by decide)⟩
  | arr xs =>
      replace h : (if truthy (Json.arr xs) then (Except.error () : Except Unit Json)
          else Except.ok (Json.str ("agg:" ++ pyStr (jget kvs "appTableQueryId")))) = Except.ok r := h
      by_cases h1 : truthy (Json.arr xs) = true
      · rw [if_pos h1] at h; exact Except.noConfusion h
      · rw [if_neg h1] at h
        injection h with h
        exact ⟨_, h.symm, ne_empty_append "agg:" _ (by decide)⟩

theorem describe_after_dms_str (kvs : JObj) (ctx : Ctx) (r : Json)
    (h : describe_after_dms kvs ctx = .ok r)
    (hds : jget kvs "datasourceType" = .null ∨ ∃ t, jget kvs "datasourceType" = .str t) :
    ∃ s : String, r = .str s ∧ s ≠ "" := by
  rw [describe_after_dms] at h
  by_cases h1 : jget kvs "datasourceType" = .str "tableAggregation"
  case neg => rw [if_neg h1] at h; exact describe_tail_str kvs r h hds
  case pos =>
    rw [if_pos h1] at h
    by_cases h0 : truthy (jget kvs "appTableQueryId") = true
    case neg =>
      rw [if_neg h0] at h
      replace h : describe_agg_found kvs .null = Except.ok r := h
      exact describe_agg_found_str kvs .null r h
    case pos =>
      rw [if_pos h0] at h
      cases hq : dictGet ctx.tq_index (jget kvs "appTableQueryId") with
      | error e => rw [hq] at h; exact Except.noConfusion h
      | ok tq =>
          rw [hq] at h
          replace h : describe_agg_found kvs tq = Except.ok r := h
          exact describe_agg_found_str kvs tq r h

theorem describe_slot_found_str (kvs : JObj) (slot : Json) (r : Json)
    (h : describe_slot_found kvs slot = .ok r) :
    ∃ s : String, r = .str s ∧ s ≠ "" := by
  cases slot with
  | obj skvs =>
      replace h : (if truthy (Json.obj skvs) then
          Except.ok (Json.str ("dms:" ++ pyStr (jget skvs "name")))
        else Except.ok (Json.str ("dms:" ++ pyStr (jget kvs "dataModelSlot")))) = Except.ok r := h
      by_cases h1 : truthy (Json.obj skvs) = true
      · rw [if_pos h1] at h
        injection h with h
        exact ⟨_, h.symm, ne_empty_append "dms:" _ (by decide)⟩
      · rw [if_neg h1] at h
        injection h with h
        exact ⟨_, h.symm, ne_empty_append "dms:" _ (by decide)⟩
  | null =>
      injection h with h
      exact ⟨_, h.symm, ne_empty_append "dms:" _ (by decide)⟩
  | bool b =>
      replace h : (if truthy (Json.bool b) then (Except.error () : Except Unit Json)
          else Except.ok (Json.str ("dms:" ++ pyStr (jget kvs "dataModelSlot")))) = Except.ok r := h
      by_cases h1 : truthy (Json.bool b) = true
      · rw [if_pos h1] at h; exact Except.noConfusion h
      · rw [if_neg h1] at h
        injection h with h
        exact ⟨_, h.symm, ne_empty_append "dms:" _ (by decide)⟩
  | num n =>
      replace h : (if truthy (Json.num n) then (Except.error () : Except Unit Json)
          else Except.ok (Json.str ("dms:" ++ pyStr (jget kvs "dataModelSlot")))) = Except.ok r := h
      by_cases h1 : truthy (Json.num n) = true
      · rw [if_pos h1] at h; exact Except.noConfusion h
      · rw [if_neg h1] at h
        injection h with h
        exact ⟨_, h.symm, ne_empty_append "dms:" _ (by decide)⟩
  | str t =>
      replace h : (if truthy (Json.str t) then (Except.error () : Except Unit Json)
          else Except.ok (Json.str ("dms:" ++ pyStr (jget kvs "dataModelSlot")))) = Except.ok r := h
      by_cases h1 : truthy (Json.str t) = true
      · rw [if_pos h1] at h; exact Except.noConfusion h
      · rw [if_neg h1] at h
        injection h with h
        exact ⟨_, h.symm, ne_empty_append "dms:" _ (by decide)⟩
  | arr xs =>
      replace h : (if truthy (Json.arr xs) then (Except.error () : Except Unit Json)
          else Except.ok (Json.str ("dms:" ++ pyStr (jget kvs "dataModelSlot")))) = Except.ok r := h
      by_cases h1 : truthy (Json.arr xs) = true
      · rw [if_pos h1] at h; exact Except.noConfusion h
      · rw [if_neg h1] at h
        injection h with h
        exact ⟨_, h.symm, ne_empty_append "dms:" _ (by decide)⟩

theorem describe_after_variable_str (kvs : JObj) (ctx : Ctx) (r : Json)
    (h : describe_after_variable kvs ctx = .ok r)
    (hds : jget kvs "datasourceType" = .null ∨ ∃ t, jget kvs "datasourceType" = .str t) :
    ∃ s : String, r = .str s ∧ s ≠ "" := by
  rw [describe_after_variable] at h
  split_ifs at h with h1 h2
  · cases hq : dictGet ctx.dms_index (jget kvs "dataModelSlot") with
    | error e => rw [hq] at h; exact Except.noConfusion h
    | ok slot =>
        rw [hq] at h
        replace h : describe_slot_found kvs slot = Except.ok r := h
        exact describe_slot_found_str kvs slot r h
  · exact describe_after_dms_str kvs ctx r h hds
  · exact describe_after_dms_str kvs ctx r h hds

theorem describe_var_found_str (kvs : JObj) (var : Json) (r : Json)
    (h : describe_var_found kvs var = .ok r) :
    ∃ s : String, r = .str s ∧ s ≠ "" := by
  cases var with
  | obj vkvs =>
      replace h : (if truthy (Json.obj vkvs) then
          Except.ok (Json.str ("var:" ++ pyStr (jget vkvs "name")))
        else Except.ok (Json.str ("var:" ++
          pyStr (pyOr (jget kvs "variableId") (jget kvs "variable"))))) = Except.ok r := h
      by_cases h1 : truthy (Json.obj vkvs) = true
      · rw [if_pos h1] at h
        injection h with h
        exact ⟨_, h.symm, ne_empty_append "var:" _ (by decide)⟩
      · rw [if_neg h1] at h
        injection h with h
        exact ⟨_, h.symm, ne_empty_append "var:" _ (by decide)⟩
  | null =>
      injection h with h
      exact ⟨_, h.symm, ne_empty_append "var:" _ (by decide)⟩
  | bool b =>
      replace h : (if truthy (Json.bool b) then (Except.error () : Except Unit Json)
          else Except.ok (Json.str ("var:" ++ pyStr (pyOr (jget kvs "variableId") (jget kvs "variable"))))) = Except.ok r := h
      by_cases h1 : truthy (Json.bool b) = true
      · rw [if_pos h1] at h; exact Except.noConfusion h
      · rw [if_neg h1] at h
        injection h with h
        exact ⟨_, h.symm, ne_empty_append "var:" _ (by decide)⟩
  | num n =>
      replace h : (if truthy (Json.num n) then (Except.error () : Except Unit Json)
          else Except.ok (Json.str ("var:" ++ pyStr (pyOr (jget kvs "variableId") (jget kvs "variable"))))) = Except.ok r := h
      by_cases h1 : truthy (Json.num n) = true
      · rw [if_pos h1] at h; exact Except.noConfusion h
      · rw [if_neg h1] at h
        injection h with h
        exact ⟨_, h.symm, ne_empty_append "var:" _ (by decide)⟩
  | str t =>
      replace h : (if truthy (Json.str t) then (Except.error () : Except Unit Json)
          else Except.ok (Json.str ("var:" ++ pyStr (pyOr (jget kvs "variableId") (jget kvs "variable"))))) = Except.ok r := h
      by_cases h1 : truthy (Json.str t) = true
      · rw [if_pos h1] at h; exact Except.noConfusion h
      · rw [if_neg h1] at h
        injection h with h
        exact ⟨_, h.symm, ne_empty_append "var:" _ (by decide)⟩
  | arr xs =>
      replace h : (if truthy (Json.arr xs) then (Except.error () : Except Unit Json)
          else Except.ok (Json.str ("var:" ++ pyStr (pyOr (jget kvs "variableId") (jget kvs "variable"))))) = Except.ok r := h
      by_cases h1 : truthy (Json.arr xs) = true
      · rw [if_pos h1] at h; exact Except.noConfusion h
      · rw [if_neg h1] at h
        injection h with h
        exact ⟨_, h.symm, ne_empty_append "var:" _ (by decide)⟩

/-- C4 (amended): whenever describe_input_value returns on a
mapping-shaped input value whose "datasourceType" field is absent, null,
or a string, the result is a non-empty string.  (The original claim is
false: a truthy non-string datasourceType is returned unchanged by the
final `return ds or "?"`, see the counterexample; and a non-mapping input
or an unhashable consulted reference identifier raises.) -/
theorem c4_describe_input_value (kvs : JObj) (ctx : Ctx) (r : Json)
    (h : describe_input_value (.obj kvs) ctx = .ok r)
    (hds : jget kvs "datasourceType" = .null ∨ ∃ t, jget kvs "datasourceType" = .str t) :
    ∃ s : String, r = .str s ∧ s ≠ "" := by
  rw [describe_input_value] at h
  split_ifs at h with h1 h2
  · cases hq : dictGet ctx.var_index (pyOr (jget kvs "variableId") (jget kvs "variable")) with
    | error e => rw [hq] at h; exact Except.noConfusion h
    | ok var =>
        rw [hq] at h
        replace h : describe_var_found kvs var = Except.ok r := h
        exact describe_var_found_str kvs var r h
  · exact describe_after_variable_str kvs ctx r h hds
  · exact describe_after_variable_str kvs ctx r h hds

/-- C4 counterexample: a mapping-shaped input value whose datasourceType
is the number 7 reaches `return ds or "?"`, which returns the number
itself — not a string, let alone a non-empty one. -/
theorem c4_counterexample :
    describe_input_value (jobj [("datasourceType", .num 7)]) ⟨[], [], []⟩ =
      .ok (.num 7) ∧ ∀ t : String, (Json.num 7) ≠ .str t :=
  ⟨rfl, fun _ h => Json.noConfusion h⟩

/-- C4 witness: the amended totality applied at an input value carrying
none of the recognised source kinds and no expression field. -/
theorem c4_witness :
    describe_input_value (jobj [("foo", .num 1)]) ⟨[], [], []⟩ = .ok (.str "?") ∧
    (∃ s : String, (Json.str "?") = .str s ∧ s ≠ "") := by
  refine ⟨rfl, ?_⟩
  exact c4_describe_input_value (JObj.ofList [("foo", .num 1)]) ⟨[], [], []⟩ (.str "?")
    rfl (Or.inl rfl)

/-- C10: an input value with source kind "variable" (respectively
"dataModelSlot") but no truthy variable (resp. slot) identifier and no
expression field falls through every branch and yields the bare
source-kind string, without the "var:" / "dms:" prefix. -/
theorem c10_bare_source_kind (kvs : JObj) (ctx : Ctx)
    (hexpr1 : jhas kvs "exprStr" = false) (hexpr2 : jhas kvs "expression" = false) :
    (jget kvs "datasourceType" = .str "variable" →
      truthy (jget kvs "variableId") = false → truthy (jget kvs "variable") = false →
      describe_input_value (.obj kvs) ctx = .ok (.str "variable")) ∧
    (jget kvs "datasourceType" = .str "dataModelSlot" →
      truthy (jget kvs "dataModelSlot") = false →
      describe_input_value (.obj kvs) ctx = .ok (.str "dataModelSlot")) := by
  have hexpr : truthy (pyOr (jget kvs "exprStr") (jget kvs "expression")) = false := by
    rw [jget_of_jhas_false _ _ hexpr1, jget_of_jhas_false _ _ hexpr2]
    rfl
  constructor
  · intro hds h1 h2
    have hv : truthy (pyOr (jget kvs "variableId") (jget kvs "variable")) = false := by
      rw [pyOr, if_neg (by simp [h1])]
      exact h2
    rw [describe_input_value, if_pos hds, if_neg (by simp [hv])]
    rw [describe_after_variable,
      if_neg (fun hc => by rw [hds] at hc; exact absurd hc (by decide))]
    rw [describe_after_dms,
      if_neg (fun hc => by rw [hds] at hc; exact absurd hc (by decide))]
    rw [describe_tail,
      if_neg (fun hc => by have hx := hc.1; rw [hds] at hx; exact absurd hx (by decide)),
      if_neg (by simp [hexpr])]
    rw [hds]
    rfl
  · intro hds h1
    rw [describe_input_value,
      if_neg (fun hc => by rw [hds] at hc; exact absurd hc (by decide))]
    rw [describe_after_variable, if_pos hds, if_neg (by simp [h1])]
    rw [describe_after_dms,
      if_neg (fun hc => by rw [hds] at hc; exact absurd hc (by decide))]
    rw [describe_tail,
      if_neg (fun hc => by have hx := hc.1; rw [hds] at hx; exact absurd hx (by decide)),
      if_neg (by simp [hexpr])]
    rw [hds]
    rfl

/-- C10 witness: the bare kinds at concrete falsy-identifier inputs. -/
theorem c10_witness :
    describe_input_value (jobj [("datasourceType", .str "variable")]) ⟨[], [], []⟩ =
      .ok (.str "variable") ∧
    describe_input_value (jobj [("datasourceType", .str "dataModelSlot"),
      ("dataModelSlot", .str "")]) ⟨[], [], []⟩ = .ok (.str "dataModelSlot") :=
  ⟨(c10_bare_source_kind (JObj.ofList [("datasourceType", .str "variable")])
      ⟨[], [], []⟩ rfl rfl).1 rfl rfl rfl,
   (c10_bare_source_kind (JObj.ofList [("datasourceType", .str "dataModelSlot"),
      ("dataModelSlot", .str "")]) ⟨[], [], []⟩ rfl rfl).2 rfl rfl⟩

/-- C7: a variable-kind input value resolves to the indexed variable's
name (prefixed "var:") when the identifier is in the variable index, and
to the raw identifier (prefixed "var:") when it is absent. -/
theorem c7_variable_resolution (ctx : Ctx) (kvs : JObj) (vid : String) (hvid : vid ≠ "")
    (hds : jget kvs "datasourceType" = .str "variable")
    (hid : jget kvs "variableId" = .str vid) :
    (∀ (kj : Json) (vkvs : JObj) (nm : String),
      ctx.var_index.find? (fun p => decide (p.1 = .str vid)) = some (kj, .obj vkvs) →
      jget vkvs "name" = .str nm →
      describe_input_value (.obj kvs) ctx = .ok (.str ("var:" ++ nm))) ∧
    (ctx.var_index.find? (fun p => decide (p.1 = .str vid)) = none →
      describe_input_value (.obj kvs) ctx = .ok (.str ("var:" ++ vid))) := by
  have htr : truthy (.str vid) = true := by
    rw [show truthy (Json.str vid) = !vid.isEmpty from rfl]
    cases he : vid.isEmpty with
    | false => rfl
    | true => exact absurd ((String.isEmpty_iff vid).mp he) hvid
  have hpy : pyOr (jget kvs "variableId") (jget kvs "variable") = .str vid := by
    rw [hid, pyOr, if_pos htr]
  constructor
  · intro kj vkvs nm hfind hnm
    have hdg : dictGet ctx.var_index (.str vid) = .ok (.obj vkvs) := by
      rw [dictGet, if_pos (show hashable (Json.str vid) = true from rfl), hfind]
    rw [describe_input_value, if_pos hds, hpy, if_pos htr, hdg]
    show describe_var_found kvs (.obj vkvs) = .ok (.str ("var:" ++ nm))
    cases vkvs with
    | nil => exact Json.noConfusion hnm
    | cons a v rest =>
        rw [describe_var_found, if_pos (show truthy (.obj (.cons a v rest)) = true from rfl)]
        rw [hnm]
        rfl
  · intro hfind
    have hdg : dictGet ctx.var_index (.str vid) = .ok .null := by
      rw [dictGet, if_pos (show hashable (Json.str vid) = true from rfl), hfind]
    rw [describe_input_value, if_pos hds, hpy, if_pos htr, hdg]
    show (if truthy Json.null then (Except.error () : Except Unit Json)
          else Except.ok (Json.str ("var:" ++
            pyStr (pyOr (jget kvs "variableId") (jget kvs "variable"))))) =
      Except.ok (Json.str ("var:" ++ vid))
    rw [if_neg (by decide), hpy]
    rfl

/-- C7 witness: the two concrete scenarios of the claim, with variable v1
named "Count" in the index, and with an empty index. -/
theorem c7_witness :
    describe_input_value (jobj [("datasourceType", .str "variable"),
        ("variableId", .str "v1")])
      ⟨[], [(.str "v1", jobj [("_id", .str "v1"), ("name", .str "Count")])], []⟩ =
      .ok (.str "var:Count") ∧
    describe_input_value (jobj [("datasourceType", .str "variable"),
        ("variableId", .str "v1")]) ⟨[], [], []⟩ = .ok (.str "var:v1") :=
  ⟨(c7_variable_resolution
      ⟨[], [(.str "v1", jobj [("_id", .str "v1"), ("name", .str "Count")])], []⟩
      (JObj.ofList [("datasourceType", .str "variable"), ("variableId", .str "v1")])
      "v1" (by decide) rfl rfl).1
      (.str "v1") (JObj.ofList [("_id", .str "v1"), ("name", .str "Count")]) "Count" rfl rfl,
   (c7_variable_resolution ⟨[], [], []⟩
      (JObj.ofList [("datasourceType", .str "variable"), ("variableId", .str "v1")])
      "v1" (by decide) rfl rfl).2 rfl⟩

/- ===== Action labels: format_dm_action_label and the emit action loop ===== -/

/-- The scan of format_dm_action_label over an action's input values: the
first dataModelSlot entry fixes the slot name (resolved through the slot
index, else the raw id), the first tableAggregation/variable/static entry
fixes the source description (via the resolver); `elif` ordering as in the
source. -/
def dmScan (ctx : Ctx) : List Json → Json → Json → Except Unit (Json × Json)
  | [], sn, sd => .ok (sn, sd)
  | iv :: rest, sn, sd =>
      match iv with
      | .obj kvs =>
          if jget kvs "datasourceType" = .str "dataModelSlot" ∧ truthy sn = false then
            match (if truthy (jget kvs "dataModelSlot") then
                     dictGet ctx.dms_index (jget kvs "dataModelSlot")
                   else .ok .null) with
            | .error e => .error e
            | .ok slot =>
                if truthy slot then
                  match slot with
                  | .obj skvs => dmScan ctx rest (jget skvs "name") sd
                  | _ => .error ()
                else dmScan ctx rest (jget kvs "dataModelSlot") sd
          else if (jget kvs "datasourceType" = .str "tableAggregation" ∨
                   jget kvs "datasourceType" = .str "variable" ∨
                   jget kvs "datasourceType" = .str "static") ∧ truthy sd = false then
            match describe_input_value (.obj kvs) ctx with
            | .error e => .error e
            | .ok d => dmScan ctx rest sn d
          else dmScan ctx rest sn sd
      | _ => .error ()

/-- The verb of format_dm_action_label: a friendly phrase for the three
data-model action types, the raw type value otherwise. -/
def dmVerb (atype : Json) : Json :=
  if atype = .str "load_data_model_record" then .str "Load record"
  else if atype = .str "unload_data_model_record" then .str "Unload record"
  else if atype = .str "create_or_load_data_model_record" then .str "Create or load record"
  else atype

/-- format_dm_action_label: "<verb> :<slot name> from <resolved source>",
dropping the slot and source parts when they did not resolve to truthy
values; `" ".join` raises when the verb is not a string. -/
def format_dm_action_label (atype : Json) (ivs : List Json) (ctx : Ctx) : Except Unit String :=
  match dmScan ctx ivs .null .null with
  | .error e => .error e
  | .ok (slot_name, source_desc) =>
      pyJoin " " ([dmVerb atype] ++
        (if truthy slot_name then [.str (":" ++ pyStr slot_name)] else []) ++
        (if truthy source_desc then [.str ("from " ++ pyStr source_desc)] else []))

example :
    format_dm_action_label (.str "load_data_model_record")
      [jobj [("datasourceType", .str "dataModelSlot"), ("dataModelSlot", .str "slot1")],
       jobj [("datasourceType", .str "static"), ("value", .num 5)]]
      ⟨[], [], [(.str "slot1", jobj [("_id", .str "slot1"), ("name", .str "Shift")])]⟩ =
      .ok "Load record :Shift from static:5" := rfl

/-- The resolver mapped over a list of input values (the list
comprehension in the emit loop; a raise propagates). -/
def describeAll : List Json → Ctx → Except Unit (List Json)
  | [], _ => .ok []
  | iv :: rest, ctx =>
      match describe_input_value iv ctx with
      | .error e => .error e
      | .ok d =>
          match describeAll rest ctx with
          | .error e => .error e
          | .ok ds => .ok (d :: ds)

/-- One action's rendered label in the emitted clause body: the
specialised data-model phrase for the three load/unload/create-or-load
types, else "<type>(<resolved refs>)", or the raw type value when no ref
resolved truthy. -/
def action_label (a : Json) (ctx : Ctx) : Except Unit Json :=
  match a with
  | .obj akvs =>
      match pyIter (pyOr (if jhas akvs "input_values" then jget akvs "input_values"
                          else jarr [])
                         (if jhas akvs "inputs" then jget akvs "inputs" else jarr [])) with
      | .error e => .error e
      | .ok ivs =>
          if pyOr (pyOr (jget akvs "type") (jget akvs "actionType")) (.str "ACTION") =
                .str "load_data_model_record" ∨
             pyOr (pyOr (jget akvs "type") (jget akvs "actionType")) (.str "ACTION") =
                .str "unload_data_model_record" ∨
             pyOr (pyOr (jget akvs "type") (jget akvs "actionType")) (.str "ACTION") =
                .str "create_or_load_data_model_record" then
            match format_dm_action_label
                (pyOr (pyOr (jget akvs "type") (jget akvs "actionType")) (.str "ACTION"))
                ivs ctx with
            | .error e => .error e
            | .ok s => .ok (.str s)
          else
            match describeAll ivs ctx with
            | .error e => .error e
            | .ok refs =>
                match pyJoin ", " (refs.filter truthy) with
                | .error e => .error e
                | .ok ref_str =>
                    if ref_str ≠ "" then
                      .ok (.str (pyStr (pyOr (pyOr (jget akvs "type")
                        (jget akvs "actionType")) (.str "ACTION")) ++
                        "(" ++ ref_str ++ ")"))
                    else .ok (pyOr (pyOr (jget akvs "type") (jget akvs "actionType"))
                      (.str "ACTION"))
  | _ => .error ()

/-- C8: a data-model load/unload/create-or-load action renders as
"<Load|Unload|Create or load> record :<slot name> from <resolved
source>"; the claim's concrete action with slot slot1 named "Shift"
renders as "Load record :Shift from static:5" (also via the emit loop's
action_label), and the other two verbs produce their phrases on the same
input values. -/
theorem c8_format_dm_action_label :
    (format_dm_action_label (.str "load_data_model_record")
      [jobj [("datasourceType", .str "dataModelSlot"), ("dataModelSlot", .str "slot1")],
       jobj [("datasourceType", .str "static"), ("value", .num 5)]]
      ⟨[], [], [(.str "slot1", jobj [("_id", .str "slot1"), ("name", .str "Shift")])]⟩ =
      .ok "Load record :Shift from static:5") ∧
    (action_label (jobj [("type", .str "load_data_model_record"),
        ("input_values", jarr [jobj [("datasourceType", .str "dataModelSlot"),
          ("dataModelSlot", .str "slot1")],
          jobj [("datasourceType", .str "static"), ("value", .num 5)]])])
      ⟨[], [], [(.str "slot1", jobj [("_id", .str "slot1"), ("name", .str "Shift")])]⟩ =
      .ok (.str "Load record :Shift from static:5")) ∧
    (format_dm_action_label (.str "unload_data_model_record")
      [jobj [("datasourceType", .str "dataModelSlot"), ("dataModelSlot", .str "slot1")],
       jobj [("datasourceType", .str "static"), ("value", .num 5)]]
      ⟨[], [], [(.str "slot1", jobj [("_id", .str "slot1"), ("name", .str "Shift")])]⟩ =
      .ok "Unload record :Shift from static:5") ∧
    (format_dm_action_label (.str "create_or_load_data_model_record")
      [jobj [("datasourceType", .str "dataModelSlot"), ("dataModelSlot", .str "slot1")],
       jobj [("datasourceType", .str "static"), ("value", .num 5)]]
      ⟨[], [], [(.str "slot1", jobj [("_id", .str "slot1"), ("name", .str "Shift")])]⟩ =
      .ok "Create or load record :Shift from static:5") :=
  ⟨rfl, rfl, rfl, rfl⟩

/- ===== Trigger classification (get_trigger_event_type, categorize_step_triggers) ===== -/

/-- The flat-field fallback of get_trigger_event_type: a key that is
present with a string value, else nothing. -/
def flatEvField (tkvs : JObj) (k : String) : Option String :=
  if jhas tkvs k then
    match jget tkvs k with
    | .str s => some s
    | _ => none
  else none

/-- get_trigger_event_type: event.type when the event field is a mapping
with a string type, else the first of eventType, event_type,
triggerEventType, type that is present with a string value, else
"UNKNOWN"; attribute access on a non-mapping trigger raises. -/
def get_trigger_event_type (trigger : Json) : Except Unit String :=
  match trigger with
  | .obj tkvs =>
      .ok (match jget tkvs "event" with
           | .obj ekvs =>
               match jget ekvs "type" with
               | .str t => t
               | _ =>
                   match oalt (oalt (oalt (flatEvField tkvs "eventType")
                       (flatEvField tkvs "event_type"))
                       (flatEvField tkvs "triggerEventType"))
                       (flatEvField tkvs "type") with
                   | some s => s
                   | none => "UNKNOWN"
           | _ =>
               match oalt (oalt (oalt (flatEvField tkvs "eventType")
                   (flatEvField tkvs "event_type"))
                   (flatEvField tkvs "triggerEventType"))
                   (flatEvField tkvs "type") with
               | some s => s
               | none => "UNKNOWN")
  | _ => .error ()

/-- Python substring containment `needle in hay`. -/
def strIn (needle hay : String) : Bool := containsSub needle.data hay.data

/-- Python str.lower, character-wise (the event-type keywords are
ASCII). -/
def pyLower (s : String) : String := String.mk (s.data.map Char.toLower)

/-- The five buckets of categorize_step_triggers. -/
inductive TrigCat where
  | step_open
  | interval
  | machines_output
  | step_closed
  | other
deriving DecidableEq

/-- The if/elif chain of categorize_step_triggers on the lower-cased
event type, in source order. -/
def classify_et (low : String) : TrigCat :=
  if strIn "step_open" low || strIn "step_enter" low then .step_open
  else if strIn "step_closed" low || strIn "step_close" low || strIn "step_exit" low then
    .step_closed
  else if strIn "interval" low || strIn "timer" low then .interval
  else if strIn "machines_output" low || strIn "machine" low || strIn "device" low then
    .machines_output
  else .other

/-- Classification of one trigger: resolve the event type, lower-case,
run the keyword chain. -/
def classifyTrig (trig : Json) : Except Unit TrigCat :=
  match get_trigger_event_type trig with
  | .error e => .error e
  | .ok et => .ok (classify_et (pyLower et))

/-- The bucket dictionary of categorize_step_triggers, fields in the
source's literal order. -/
structure Cats where
  step_open : List Json
  interval : List Json
  machines_output : List Json
  step_closed : List Json
  other : List Json
deriving DecidableEq

def emptyCats : Cats := ⟨[], [], [], [], []⟩

/-- Prepend a trigger to its bucket (the loop appends in order; the
recursion below prepends the head to the tail's buckets, which agrees). -/
def consCat (c : Cats) (b : TrigCat) (x : Json) : Cats :=
  match b with
  | .step_open => ⟨x :: c.step_open, c.interval, c.machines_output, c.step_closed, c.other⟩
  | .interval => ⟨c.step_open, x :: c.interval, c.machines_output, c.step_closed, c.other⟩
  | .machines_output => ⟨c.step_open, c.interval, x :: c.machines_output, c.step_closed, c.other⟩
  | .step_closed => ⟨c.step_open, c.interval, c.machines_output, x :: c.step_closed, c.other⟩
  | .other => ⟨c.step_open, c.interval, c.machines_output, c.step_closed, x :: c.other⟩

/-- The bucket selected by a category. -/
def bucketOf (c : Cats) : TrigCat → List Json
  | .step_open => c.step_open
  | .interval => c.interval
  | .machines_output => c.machines_output
  | .step_closed => c.step_closed
  | .other => c.other

deriving instance DecidableEq for Except

/-- categorize_step_triggers: None entries are skipped, every other
entry is classified and appended to exactly its bucket; a non-mapping
trigger raises. -/
def categorize_step_triggers : List Json → Except Unit Cats
  | [] => .ok emptyCats
  | trig :: rest =>
      if trig = Json.null then categorize_step_triggers rest
      else
        match classifyTrig trig with
        | .error e => .error e
        | .ok c =>
            match categorize_step_triggers rest with
            | .error e => .error e
            | .ok cats => .ok (consCat cats c trig)

theorem classify_et_spec (low : String) :
    ((classify_et low = TrigCat.step_open) ↔
      (strIn "step_open" low || strIn "step_enter" low) = true) ∧
    ((classify_et low = TrigCat.step_closed) ↔
      ((strIn "step_open" low || strIn "step_enter" low) = false ∧
       (strIn "step_closed" low || strIn "step_close" low || strIn "step_exit" low) = true)) ∧
    ((classify_et low = TrigCat.interval) ↔
      ((strIn "step_open" low || strIn "step_enter" low) = false ∧
       (strIn "step_closed" low || strIn "step_close" low || strIn "step_exit" low) = false ∧
       (strIn "interval" low || strIn "timer" low) = true)) ∧
    ((classify_et low = TrigCat.machines_output) ↔
      ((strIn "step_open" low || strIn "step_enter" low) = false ∧
       (strIn "step_closed" low || strIn "step_close" low || strIn "step_exit" low) = false ∧
       (strIn "interval" low || strIn "timer" low) = false ∧
       (strIn "machines_output" low || strIn "machine" low || strIn "device" low) = true)) ∧
    ((classify_et low = TrigCat.other) ↔
      ((strIn "step_open" low || strIn "step_enter" low) = false ∧
       (strIn "step_closed" low || strIn "step_close" low || strIn "step_exit" low) = false ∧
       (strIn "interval" low || strIn "timer" low) = false ∧
       (strIn "machines_output" low || strIn "machine" low || strIn "device" low) = false)) := by
  unfold classify_et
  generalize (strIn "step_open" low || strIn "step_enter" low) = a
  generalize (strIn "step_closed" low || strIn "step_close" low || strIn "step_exit" low) = b
  generalize (strIn "interval" low || strIn "timer" low) = c
  generalize (strIn "machines_output" low || strIn "machine" low || strIn "device" low) = d
  cases a <;> cases b <;> cases c <;> cases d <;> decide

theorem categorize_bucket (l : List Json) (cats : Cats)
    (h : categorize_step_triggers l = .ok cats) (b : TrigCat) :
    bucketOf cats b = l.filter
      (fun t => !decide (t = Json.null) && decide (classifyTrig t = Except.ok b)) := by
  induction l generalizing cats with
  | nil =>
      replace h : (Except.ok emptyCats : Except Unit Cats) = Except.ok cats := h
      cases h
      cases b <;> rfl
  | cons t rest ih =>
      rw [categorize_step_triggers] at h
      by_cases hn : t = Json.null
      · rw [if_pos hn] at h
        have hp : (!decide (t = Json.null) &&
            decide (classifyTrig t = Except.ok b)) = false := by simp [hn]
        simp only [List.filter_cons, hp, Bool.false_eq_true, if_false]
        exact ih cats h
      · rw [if_neg hn] at h
        cases hc : classifyTrig t with
        | error e =>
            rw [hc] at h
            exact Except.noConfusion h
        | ok c =>
            rw [hc] at h
            cases hr : categorize_step_triggers rest with
            | error e =>
                rw [hr] at h
                exact Except.noConfusion h
            | ok cats' =>
                rw [hr] at h
                replace h : Except.ok (consCat cats' c t) = Except.ok cats := h
                cases h
                have hp : (!decide (t = Json.null) &&
                    decide (classifyTrig t = Except.ok b)) = decide (c = b) := by
                  simp [hn, hc]
                rw [List.filter_cons, hp]
                by_cases hcb : c = b
                · subst hcb
                  rw [if_pos (by simp)]
                  have hb : bucketOf (consCat cats' c t) c = t :: bucketOf cats' c := by
                    cases c <;> rfl
                  rw [hb, ih cats' hr]
                · rw [if_neg (by simp [hcb])]
                  have hb : bucketOf (consCat cats' c t) b = bucketOf cats' b := by
                    cases c <;> cases b <;> first | (exact absurd rfl hcb) | rfl
                  rw [hb, ih cats' hr]

theorem categorize_mem_ok (l : List Json) (cats : Cats)
    (h : categorize_step_triggers l = .ok cats) :
    ∀ t ∈ l, t ≠ Json.null → ∃ et, get_trigger_event_type t = Except.ok et := by
  induction l generalizing cats with
  | nil => intro t ht; exact absurd ht (List.not_mem_nil t)
  | cons u rest ih =>
      rw [categorize_step_triggers] at h
      intro t ht hn
      by_cases hu : u = Json.null
      · rw [if_pos hu] at h
        rcases List.mem_cons.mp ht with he | hm
        · exact absurd (he.trans hu) hn
        · exact ih cats h t hm hn
      · rw [if_neg hu] at h
        cases hc : classifyTrig u with
        | error e => rw [hc] at h; exact Except.noConfusion h
        | ok c =>
            rw [hc] at h
            cases hr : categorize_step_triggers rest with
            | error e => rw [hr] at h; exact Except.noConfusion h
            | ok cats' =>
                rcases List.mem_cons.mp ht with he | hm
                · rw [he]
                  rw [classifyTrig] at hc
                  cases hg : get_trigger_event_type u with
                  | error e => rw [hg] at hc; exact Except.noConfusion hc
                  | ok et => exact ⟨et, rfl⟩
                · exact ih cats' hr t hm hn

/-- C6: categorize_step_triggers lower-cases the resolved event type and
puts every non-null trigger in exactly one of the five buckets: each
bucket is the in-order sublist of triggers classifying to it (so buckets
are pairwise consistent and exhaustive), every non-null trigger's event
type resolves and its classification is the keyword chain on the
lower-cased string, the chain's buckets are characterized by substring
containment in the precedence order entry-like, exit-like, timer-like,
machine/device-like, else other (first match wins), and a null trigger
appears in no bucket. -/
theorem c6_categorize_step_triggers (l : List Json) (cats : Cats)
    (h : categorize_step_triggers l = Except.ok cats) :
    (∀ b : TrigCat, bucketOf cats b = l.filter
      (fun t => !decide (t = Json.null) && decide (classifyTrig t = Except.ok b))) ∧
    (∀ t ∈ l, t ≠ Json.null → ∃ et, get_trigger_event_type t = Except.ok et ∧
      classifyTrig t = Except.ok (classify_et (pyLower et))) ∧
    (∀ b : TrigCat, Json.null ∉ bucketOf cats b) ∧
    (∀ low : String,
      ((classify_et low = TrigCat.step_open) ↔
        (strIn "step_open" low || strIn "step_enter" low) = true) ∧
      ((classify_et low = TrigCat.step_closed) ↔
        ((strIn "step_open" low || strIn "step_enter" low) = false ∧
         (strIn "step_closed" low || strIn "step_close" low || strIn "step_exit" low) = true)) ∧
      ((classify_et low = TrigCat.interval) ↔
        ((strIn "step_open" low || strIn "step_enter" low) = false ∧
         (strIn "step_closed" low || strIn "step_close" low || strIn "step_exit" low) = false ∧
         (strIn "interval" low || strIn "timer" low) = true)) ∧
      ((classify_et low = TrigCat.machines_output) ↔
        ((strIn "step_open" low || strIn "step_enter" low) = false ∧
         (strIn "step_closed" low || strIn "step_close" low || strIn "step_exit" low) = false ∧
         (strIn "interval" low || strIn "timer" low) = false ∧
         (strIn "machines_output" low || strIn "machine" low || strIn "device" low) = true)) ∧
      ((classify_et low = TrigCat.other) ↔
        ((strIn "step_open" low || strIn "step_enter" low) = false ∧
         (strIn "step_closed" low || strIn "step_close" low || strIn "step_exit" low) = false ∧
         (strIn "interval" low || strIn "timer" low) = false ∧
         (strIn "machines_output" low || strIn "machine" low || strIn "device" low) = false))) := by
  refine ⟨fun b => categorize_bucket l cats h b, ?_, ?_, fun low => classify_et_spec low⟩
  · intro t ht hn
    obtain ⟨et, het⟩ := categorize_mem_ok l cats h t ht hn
    refine ⟨et, het, ?_⟩
    rw [classifyTrig, het]
  · intro b hmem
    rw [categorize_bucket l cats h b] at hmem
    have := List.of_mem_filter hmem
    simp at this

/-- A concrete trigger list exercising all five buckets plus a null
entry (skipped). -/
def demoTrigs : List Json :=
  [Json.null,
   jobj [("event", jobj [("type", Json.str "STEP_ENTER_x")])],
   jobj [("eventType", Json.str "my_timer")],
   jobj [("type", Json.str "machine_data")],
   jobj [("event_type", Json.str "on_step_exit")],
   jobj []]

def demoCats : Cats :=
  ⟨[jobj [("event", jobj [("type", Json.str "STEP_ENTER_x")])]],
   [jobj [("eventType", Json.str "my_timer")]],
   [jobj [("type", Json.str "machine_data")]],
   [jobj [("event_type", Json.str "on_step_exit")]],
   [jobj []]⟩

theorem c6_witness :
    categorize_step_triggers demoTrigs = Except.ok demoCats ∧
    (∀ b : TrigCat, bucketOf demoCats b = demoTrigs.filter
      (fun t => !decide (t = Json.null) && decide (classifyTrig t = Except.ok b))) ∧
    (∀ b : TrigCat, Json.null ∉ bucketOf demoCats b) :=
  ⟨rfl,
   (c6_categorize_step_triggers demoTrigs demoCats rfl).1,
   (c6_categorize_step_triggers demoTrigs demoCats rfl).2.2.1⟩

/- ===== Trigger-logic subgraph rendering (emit_combined_mermaid) ===== -/

/-- Python subscript `x[0]`: first element of a list, first character of
a string; raises otherwise (including the empty list). -/
def pyIndex0 : Json → Except Unit Json
  | .arr (.cons x _) => .ok x
  | .str s =>
      match s.data with
      | c :: _ => .ok (.str (String.mk [c]))
      | [] => .error ()
  | _ => .error ()

/-- sanitize_label applied to an arbitrary decoded value: None maps to
"", anything else is str()'d first (lines 626-628). -/
def sanitizeJ : Json → String
  | .null => ""
  | j => sanitize_label (pyStr j)

/-- build_condition_label: "<type>(<truthy refs, comma-joined>)", or the
raw type/conditionType/"condition" fallback when no ref resolved truthy. -/
def build_condition_label (cond : Json) (ctx : Ctx) : Except Unit Json :=
  match cond with
  | .obj ckvs =>
      match pyIter (pyOr (if jhas ckvs "input_values" then jget ckvs "input_values"
                          else jarr [])
                         (if jhas ckvs "inputs" then jget ckvs "inputs" else jarr [])) with
      | .error e => .error e
      | .ok ivs =>
          match describeAll ivs ctx with
          | .error e => .error e
          | .ok refs =>
              match refs.filter truthy with
              | [] => .ok (pyOr (pyOr (jget ckvs "type") (jget ckvs "conditionType"))
                  (.str "condition"))
              | fs =>
                  match pyJoin ", " fs with
                  | .error e => .error e
                  | .ok s =>
                      .ok (.str (pyStr (pyOr (pyOr (jget ckvs "type")
                        (jget ckvs "conditionType")) (.str "condition")) ++
                        "(" ++ s ++ ")"))
  | _ => .error ()

/-- The action-label loop of the emit clause body, in order. -/
def actionLabels : List Json → Ctx → Except Unit (List Json)
  | [], _ => .ok []
  | a :: rest, ctx =>
      match action_label a ctx with
      | .error e => .error e
      | .ok l =>
          match actionLabels rest ctx with
          | .error e => .error e
          | .ok ls => .ok (l :: ls)

/-- The per-clause record kept by the emit loop: the clause's decision
node id (when it has conditions) and action node id (when it has
actions). -/
structure CInfo where
  cond_id : Option String
  act_id : Option String
deriving DecidableEq

/-- The conditions half of one clause body: a decision-node declaration
line and its id when the clause's conditions are truthy. -/
def cond_part (base : String) (ctx : Ctx) (idx : Nat) (ckvs : JObj) :
    Except Unit (List String × Option String) :=
  if truthy (pyOr (if jhas ckvs "conditions" then jget ckvs "conditions" else jarr [])
      (jarr [])) then
    match pyIndex0 (pyOr (if jhas ckvs "conditions" then jget ckvs "conditions" else jarr [])
        (jarr [])) with
    | .error e => .error e
    | .ok c0 =>
        match build_condition_label c0 ctx with
        | .error e => .error e
        | .ok lj =>
            .ok (["    " ++ base ++ "_c" ++ toString idx ++ "\x7b\"" ++ sanitizeJ lj ++ "\"\x7d"],
                 some (base ++ "_c" ++ toString idx))
  else .ok ([], none)

/-- The actions half of one clause body: an action-node declaration line
and its id when the clause's actions are truthy. -/
def act_part (base : String) (ctx : Ctx) (idx : Nat) (ckvs : JObj) :
    Except Unit (List String × Option String) :=
  if truthy (pyOr (if jhas ckvs "actions" then jget ckvs "actions" else jarr []) (jarr [])) then
    match pyIter (pyOr (if jhas ckvs "actions" then jget ckvs "actions" else jarr []) (jarr [])) with
    | .error e => .error e
    | .ok acts =>
        match actionLabels acts ctx with
        | .error e => .error e
        | .ok labels =>
            match pyJoin "; " labels with
            | .error e => .error e
            | .ok joined =>
                .ok (["    " ++ base ++ "_a" ++ toString idx ++ "\x5b\"" ++
                      sanitize_label joined ++ "\"\x5d"],
                     some (base ++ "_a" ++ toString idx))
  else .ok ([], none)

/-- One clause of the emit loop: condition lines, then action lines, and
the recorded node ids; attribute access on a non-mapping clause raises. -/
def clause_block (base : String) (ctx : Ctx) (idx : Nat) (clause : Json) :
    Except Unit (List String × CInfo) :=
  match clause with
  | .obj ckvs =>
      match cond_part base ctx idx ckvs with
      | .error e => .error e
      | .ok (cl, cid) =>
          match act_part base ctx idx ckvs with
          | .error e => .error e
          | .ok (al, aid) => .ok (cl ++ al, ⟨cid, aid⟩)
  | _ => .error ()

/-- The whole clause loop, indices starting at k (the source enumerates
from 1). -/
def clause_blocks (base : String) (ctx : Ctx) : Nat → List Json → Except Unit (List String × List CInfo)
  | _, [] => .ok ([], [])
  | k, c :: rest =>
      match clause_block base ctx k c with
      | .error e => .error e
      | .ok (ls, ci) =>
          match clause_blocks base ctx (k + 1) rest with
          | .error e => .error e
          | .ok (ls', cis) => .ok (ls ++ ls', ci :: cis)

/-- The start wire (lines 784-790): start to the first clause's decision
node, else its action node, else nothing. -/
def start_wire (base : String) : List CInfo → List String
  | [] => []
  | ci :: _ =>
      match ci.cond_id with
      | some cid => ["    " ++ base ++ "_start --> " ++ cid]
      | none =>
          match ci.act_id with
          | some aid => ["    " ++ base ++ "_start --> " ++ aid]
          | none => []

/-- The clause-chain wiring loop (lines 792-808): a true edge from each
decision node to its own action node, and a false edge from each
decision node to the next clause's decision node, else to the next
clause's action node. -/
def wire_chain : List CInfo → List String
  | [] => []
  | ci :: rest =>
      (match ci.cond_id, ci.act_id with
       | some cid, some aid => ["    " ++ cid ++ " -->|true| " ++ aid]
       | _, _ => []) ++
      (match ci.cond_id with
       | some cid =>
           match rest with
           | [] => []
           | nxt :: _ =>
               match nxt.cond_id with
               | some ncid => ["    " ++ cid ++ " -->|false| " ++ ncid]
               | none =>
                   match nxt.act_id with
                   | some naid => ["    " ++ cid ++ " -->|false| " ++ naid]
                   | none => []
       | none => []) ++
      wire_chain rest

/-- The header, declarations, wires and footer of one trigger's logic
subgraph. -/
def logic_chunk (base : String) (tlabel : Json) (dl : List String) (infos : List CInfo) :
    List String :=
  ("  subgraph " ++ base ++ "_logic\x5b\"Logic: " ++ sanitizeJ tlabel ++ "\"\x5d") ::
  ("    " ++ base ++ "_start((\"start\"))") ::
  (dl ++ start_wire base infos ++ wire_chain infos ++ ["  end"])

/-- The lines one trigger contributes in the logic-subgraph loop (lines
718-810): nothing for a falsy trigger id, else header, start node,
clause bodies, start wire, chain wires, end. -/
def trigger_logic_lines (trig : Json) (ctx : Ctx) : Except Unit (List String) :=
  match trig with
  | .obj tkvs =>
      if truthy (pyOr (jget tkvs "_id") (jget tkvs "id")) = false then .ok []
      else
        match pyIter (pyOr (if jhas tkvs "clauses" then jget tkvs "clauses" else jarr [])
            (jarr [])) with
        | .error e => .error e
        | .ok cls =>
            match clause_blocks ("trig_" ++ pyStr (pyOr (jget tkvs "_id") (jget tkvs "id")))
                ctx 1 cls with
            | .error e => .error e
            | .ok (dl, infos) =>
                .ok (logic_chunk ("trig_" ++ pyStr (pyOr (jget tkvs "_id") (jget tkvs "id")))
                  (pyOr (pyOr (pyOr (jget tkvs "description") (jget tkvs "label"))
                    (jget tkvs "name")) (pyOr (jget tkvs "_id") (jget tkvs "id")))
                  dl infos)
  | _ => .error ()

theorem cond_part_shape (base : String) (ctx : Ctx) (idx : Nat) (ckvs : JObj)
    (ls : List String) (cid : Option String)
    (h : cond_part base ctx idx ckvs = .ok (ls, cid)) :
    cid = none ∨ cid = some (base ++ "_c" ++ toString idx) := by
  rw [cond_part] at h
  repeat' split at h
  all_goals
    first
      | exact Except.noConfusion h
      | (cases h; first | exact Or.inl rfl | exact Or.inr rfl)

theorem act_part_shape (base : String) (ctx : Ctx) (idx : Nat) (ckvs : JObj)
    (ls : List String) (aid : Option String)
    (h : act_part base ctx idx ckvs = .ok (ls, aid)) :
    aid = none ∨ aid = some (base ++ "_a" ++ toString idx) := by
  rw [act_part] at h
  repeat' split at h
  all_goals
    first
      | exact Except.noConfusion h
      | (cases h; first | exact Or.inl rfl | exact Or.inr rfl)

theorem clause_block_shape (base : String) (ctx : Ctx) (idx : Nat) (c : Json)
    (ls : List String) (ci : CInfo)
    (h : clause_block base ctx idx c = .ok (ls, ci)) :
    (ci.cond_id = none ∨ ci.cond_id = some (base ++ "_c" ++ toString idx)) ∧
    (ci.act_id = none ∨ ci.act_id = some (base ++ "_a" ++ toString idx)) := by
  cases c with
  | obj ckvs =>
      rw [clause_block] at h
      cases hcp : cond_part base ctx idx ckvs with
      | error e => rw [hcp] at h; exact Except.noConfusion h
      | ok pc =>
          rw [hcp] at h
          cases hap : act_part base ctx idx ckvs with
          | error e => rw [hap] at h; exact Except.noConfusion h
          | ok pa =>
              rw [hap] at h
              replace h : (Except.ok (pc.1 ++ pa.1, ⟨pc.2, pa.2⟩) :
                  Except Unit (List String × CInfo)) = .ok (ls, ci) := h
              cases h
              exact ⟨cond_part_shape base ctx idx ckvs pc.1 pc.2 (by rw [hcp]),
                     act_part_shape base ctx idx ckvs pa.1 pa.2 (by rw [hap])⟩
  | null => exact Except.noConfusion h
  | bool b => exact Except.noConfusion h
  | num n => exact Except.noConfusion h
  | str s => exact Except.noConfusion h
  | arr xs => exact Except.noConfusion h

theorem clause_blocks_shape (base : String) (ctx : Ctx) (cls : List Json) :
    ∀ k dl infos, clause_blocks base ctx k cls = .ok (dl, infos) →
      infos.length = cls.length ∧
      ∀ i (hi : i < infos.length),
        ((infos.get ⟨i, hi⟩).cond_id = none ∨
         (infos.get ⟨i, hi⟩).cond_id = some (base ++ "_c" ++ toString (k + i))) ∧
        ((infos.get ⟨i, hi⟩).act_id = none ∨
         (infos.get ⟨i, hi⟩).act_id = some (base ++ "_a" ++ toString (k + i))) := by
  induction cls with
  | nil =>
      intro k dl infos h
      replace h : (Except.ok (([] : List String), ([] : List CInfo)) :
          Except Unit (List String × List CInfo)) = .ok (dl, infos) := h
      cases h
      exact ⟨rfl, fun i hi => absurd hi (by simp)⟩
  | cons c rest ih =>
      intro k dl infos h
      rw [clause_blocks] at h
      cases hcb : clause_block base ctx k c with
      | error e => rw [hcb] at h; exact Except.noConfusion h
      | ok pci =>
          rw [hcb] at h
          cases hrest : clause_blocks base ctx (k + 1) rest with
          | error e => rw [hrest] at h; exact Except.noConfusion h
          | ok prest =>
              rw [hrest] at h
              replace h : (Except.ok (pci.1 ++ prest.1, pci.2 :: prest.2) :
                  Except Unit (List String × List CInfo)) = .ok (dl, infos) := h
              cases h
              obtain ⟨hlen, hsh⟩ := ih (k + 1) prest.1 prest.2 (by rw [hrest])
              refine ⟨by simp [hlen], ?_⟩
              intro i hi
              cases i with
              | zero =>
                  have := clause_block_shape base ctx k c pci.1 pci.2 (by rw [hcb])
                  simpa [Nat.add_zero] using this
              | succ j =>
                  have hj : j < prest.2.length := by
                    simp at hi
                    omega
                  have := hsh j hj
                  have harith : k + 1 + j = k + (j + 1) := by omega
                  rw [harith] at this
                  simpa using this

theorem wire_chain_true (infos : List CInfo) :
    ∀ i (hi : i < infos.length) cid aid,
      (infos.get ⟨i, hi⟩).cond_id = some cid →
      (infos.get ⟨i, hi⟩).act_id = some aid →
      ("    " ++ cid ++ " -->|true| " ++ aid) ∈ wire_chain infos := by
  induction infos with
  | nil => intro i hi; exact absurd hi (by simp)
  | cons ci rest ih =>
      intro i hi cid aid hc ha
      rw [wire_chain]
      cases i with
      | zero =>
          simp only [List.get] at hc ha
          refine List.mem_append_left _ (List.mem_append_left _ ?_)
          rw [hc, ha]
          exact List.mem_singleton.mpr rfl
      | succ j =>
          simp only [List.get] at hc ha
          exact List.mem_append_right _
            (ih j (Nat.lt_of_succ_lt_succ hi) cid aid hc ha)

theorem wire_chain_false_cond (infos : List CInfo) :
    ∀ i (hi : i + 1 < infos.length) cid ncid,
      (infos.get ⟨i, Nat.lt_of_succ_lt hi⟩).cond_id = some cid →
      (infos.get ⟨i + 1, hi⟩).cond_id = some ncid →
      ("    " ++ cid ++ " -->|false| " ++ ncid) ∈ wire_chain infos := by
  induction infos with
  | nil => intro i hi; exact absurd hi (by simp)
  | cons ci rest ih =>
      intro i hi cid ncid hc hnc
      rw [wire_chain]
      cases i with
      | zero =>
          simp only [List.get] at hc hnc
          cases rest with
          | nil => exact absurd hi (by simp)
          | cons nxt rest' =>
              simp only [List.get] at hnc
              refine List.mem_append_left _ (List.mem_append_right _ ?_)
              simp only [hc, hnc]
              exact List.mem_singleton.mpr rfl
      | succ j =>
          simp only [List.get] at hc hnc
          exact List.mem_append_right _
            (ih j (Nat.lt_of_succ_lt_succ hi) cid ncid hc hnc)

theorem wire_chain_false_act (infos : List CInfo) :
    ∀ i (hi : i + 1 < infos.length) cid naid,
      (infos.get ⟨i, Nat.lt_of_succ_lt hi⟩).cond_id = some cid →
      (infos.get ⟨i + 1, hi⟩).cond_id = none →
      (infos.get ⟨i + 1, hi⟩).act_id = some naid →
      ("    " ++ cid ++ " -->|false| " ++ naid) ∈ wire_chain infos := by
  induction infos with
  | nil => intro i hi; exact absurd hi (by simp)
  | cons ci rest ih =>
      intro i hi cid naid hc hnc hna
      rw [wire_chain]
      cases i with
      | zero =>
          simp only [List.get] at hc hnc hna
          cases rest with
          | nil => exact absurd hi (by simp)
          | cons nxt rest' =>
              simp only [List.get] at hnc hna
              refine List.mem_append_left _ (List.mem_append_right _ ?_)
              simp only [hc, hnc, hna]
              exact List.mem_singleton.mpr rfl
      | succ j =>
          simp only [List.get] at hc hnc hna
          exact List.mem_append_right _
            (ih j (Nat.lt_of_succ_lt_succ hi) cid naid hc hnc hna)

theorem trigger_logic_lines_decomp (tkvs : JObj) (ctx : Ctx) (cls : List Json)
    (dl : List String) (infos : List CInfo) (L : List String)
    (htid : truthy (pyOr (jget tkvs "_id") (jget tkvs "id")) = true)
    (hcl : pyIter (pyOr (if jhas tkvs "clauses" then jget tkvs "clauses" else jarr [])
        (jarr [])) = Except.ok cls)
    (hcb : clause_blocks ("trig_" ++ pyStr (pyOr (jget tkvs "_id") (jget tkvs "id"))) ctx 1 cls
        = Except.ok (dl, infos))
    (hok : trigger_logic_lines (Json.obj tkvs) ctx = Except.ok L) :
    L = logic_chunk ("trig_" ++ pyStr (pyOr (jget tkvs "_id") (jget tkvs "id")))
        (pyOr (pyOr (pyOr (jget tkvs "description") (jget tkvs "label")) (jget tkvs "name"))
          (pyOr (jget tkvs "_id") (jget tkvs "id"))) dl infos := by
  rw [trigger_logic_lines] at hok
  rw [if_neg (by simp [htid])] at hok
  rw [hcl] at hok
  replace hok : (match clause_blocks ("trig_" ++ pyStr (pyOr (jget tkvs "_id")
        (jget tkvs "id"))) ctx 1 cls with
    | Except.error e => (Except.error e : Except Unit (List String))
    | Except.ok (dl', infos') => Except.ok (logic_chunk ("trig_" ++ pyStr (pyOr (jget tkvs "_id")
        (jget tkvs "id")))
        (pyOr (pyOr (pyOr (jget tkvs "description") (jget tkvs "label")) (jget tkvs "name"))
          (pyOr (jget tkvs "_id") (jget tkvs "id"))) dl' infos')) = Except.ok L := hok
  rw [hcb] at hok
  replace hok : Except.ok (logic_chunk ("trig_" ++ pyStr (pyOr (jget tkvs "_id")
      (jget tkvs "id")))
      (pyOr (pyOr (pyOr (jget tkvs "description") (jget tkvs "label")) (jget tkvs "name"))
        (pyOr (jget tkvs "_id") (jget tkvs "id"))) dl infos) = Except.ok L := hok
  cases hok
  rfl

/-- C5: in a trigger's rendered logic subgraph, whenever clause i has a
decision node and an action node the lines contain a true-labelled edge
from its decision node to its own action node; whenever clause i has a
decision node and clause i+1 has a decision node the lines contain a
false-labelled edge between those decision nodes; when clause i+1 is
unconditional (no decision node) but has an action node the false edge
goes to that action node instead; node ids are base_c/base_a indexed
from 1, one record per clause. -/
theorem c5_clause_chain_wiring (tkvs : JObj) (ctx : Ctx) (L : List String) (base : String)
    (cls : List Json) (dl : List String) (infos : List CInfo)
    (htid : truthy (pyOr (jget tkvs "_id") (jget tkvs "id")) = true)
    (hbase : base = "trig_" ++ pyStr (pyOr (jget tkvs "_id") (jget tkvs "id")))
    (hcl : pyIter (pyOr (if jhas tkvs "clauses" then jget tkvs "clauses" else jarr [])
        (jarr [])) = Except.ok cls)
    (hcb : clause_blocks base ctx 1 cls = Except.ok (dl, infos))
    (hok : trigger_logic_lines (Json.obj tkvs) ctx = Except.ok L) :
    (∀ i (hi : i < infos.length) cid aid,
        (infos.get ⟨i, hi⟩).cond_id = some cid →
        (infos.get ⟨i, hi⟩).act_id = some aid →
        ("    " ++ cid ++ " -->|true| " ++ aid) ∈ L) ∧
    (∀ i (hi : i + 1 < infos.length) cid ncid,
        (infos.get ⟨i, Nat.lt_of_succ_lt hi⟩).cond_id = some cid →
        (infos.get ⟨i + 1, hi⟩).cond_id = some ncid →
        ("    " ++ cid ++ " -->|false| " ++ ncid) ∈ L) ∧
    (∀ i (hi : i + 1 < infos.length) cid naid,
        (infos.get ⟨i, Nat.lt_of_succ_lt hi⟩).cond_id = some cid →
        (infos.get ⟨i + 1, hi⟩).cond_id = none →
        (infos.get ⟨i + 1, hi⟩).act_id = some naid →
        ("    " ++ cid ++ " -->|false| " ++ naid) ∈ L) ∧
    (∀ i (hi : i < infos.length),
        ((infos.get ⟨i, hi⟩).cond_id = none ∨
         (infos.get ⟨i, hi⟩).cond_id = some (base ++ "_c" ++ toString (i + 1))) ∧
        ((infos.get ⟨i, hi⟩).act_id = none ∨
         (infos.get ⟨i, hi⟩).act_id = some (base ++ "_a" ++ toString (i + 1)))) ∧
    infos.length = cls.length := by
  subst hbase
  have hL := trigger_logic_lines_decomp tkvs ctx cls dl infos L htid hcl hcb hok
  have hmem : ∀ x, x ∈ wire_chain infos → x ∈ L := by
    intro x hx
    rw [hL, logic_chunk]
    exact List.mem_cons_of_mem _ (List.mem_cons_of_mem _
      (List.mem_append_left _ (List.mem_append_right _ hx)))
  obtain ⟨hlen, hsh⟩ := clause_blocks_shape _ ctx cls 1 dl infos hcb
  refine ⟨?_, ?_, ?_, ?_, hlen⟩
  · intro i hi cid aid hc ha
    exact hmem _ (wire_chain_true infos i hi cid aid hc ha)
  · intro i hi cid ncid hc hnc
    exact hmem _ (wire_chain_false_cond infos i hi cid ncid hc hnc)
  · intro i hi cid naid hc hnc hna
    exact hmem _ (wire_chain_false_act infos i hi cid naid hc hnc hna)
  · intro i hi
    have := hsh i hi
    rwa [Nat.add_comm 1 i] at this

/-- A context with one variable (v1 named Count) and one slot (slot1
named Shift). -/
def demoCtx : Ctx :=
  ⟨[], [(.str "v1", jobj [("_id", .str "v1"), ("name", .str "Count")])],
   [(.str "slot1", jobj [("_id", .str "slot1"), ("name", .str "Shift")])]⟩

/-- A trigger with three clauses: two with both decision and action
nodes, a final unconditional one with only an action node. -/
def demoTrigKvs : JObj := JObj.ofList
  [("_id", Json.str "T1"),
   ("clauses", jarr
     [jobj [("conditions", jarr [jobj [("type", Json.str "expr_cond"),
              ("input_values", jarr [jobj [("datasourceType", Json.str "variable"),
                ("variableId", Json.str "v1")]])]]),
            ("actions", jarr [jobj [("type", Json.str "load_data_model_record"),
              ("input_values", jarr [jobj [("datasourceType", Json.str "dataModelSlot"),
                ("dataModelSlot", Json.str "slot1")],
                jobj [("datasourceType", Json.str "static"), ("value", Json.num 5)]])]])],
      jobj [("conditions", jarr [jobj []]), ("actions", jarr [jobj []])],
      jobj [("actions", jarr [jobj []])]])]

theorem c5_witness :
    ∃ L, trigger_logic_lines (Json.obj demoTrigKvs) demoCtx = Except.ok L ∧
      ("    " ++ "trig_T1_c1" ++ " -->|true| " ++ "trig_T1_a1") ∈ L ∧
      ("    " ++ "trig_T1_c2" ++ " -->|true| " ++ "trig_T1_a2") ∈ L ∧
      ("    " ++ "trig_T1_c1" ++ " -->|false| " ++ "trig_T1_c2") ∈ L ∧
      ("    " ++ "trig_T1_c2" ++ " -->|false| " ++ "trig_T1_a3") ∈ L := by
  have H := c5_clause_chain_wiring demoTrigKvs demoCtx _ _ _ _ _ rfl rfl rfl rfl rfl
  exact ⟨_, rfl, H.1 0 (by decide) _ _ rfl rfl, H.1 1 (by decide) _ _ rfl rfl,
         H.2.1 0 (by decide) _ _ rfl rfl, H.2.2.1 1 (by decide) _ _ rfl rfl rfl⟩
